import Mathlib

/-!
The library libsnappy: snapshot enumeration and boot-identifier derivation.

A shallow embedding of `src/libsnappy.c`.

* Pointers are addresses (`Nat`, `0` is `NULL`).  A `char *` that is only read or written
  relative to itself is a view `Nat → Nat` of the bytes from that address on; `sha1_to_str`,
  whose two pointers may point into one object, works on one memory `Nat → Nat`.
* Machine integers are naturals with the C width made explicit: `size_t` arithmetic wraps
  at `2^64`, and an overflow of the signed `int` or `CFIndex`, like a store through `NULL`,
  is undefined behaviour: such a run has no result (`none`, or the mark `undefined`).
* The single heap block behind `copy_snapshot_list` is kept as its address, its size, its
  257 pointer slots and its bytes by block offset.  What the allocator answers is part of the
  environment, so a successful `reallocf` may keep the block in place or move it.
* The paging primitive `fs_snapshot_list` is the list of the pages it delivers on successive
  calls; the device tree behind `copyBootHash` is a record of its two properties.
* What `strdup`, `calloc` and `malloc` answer where the code does not check their result is
  part of the input.
* The process-wide flag `READ_NEW_IORegistryEntry` is passed in and returned explicitly.
-/

set_option maxRecDepth 100000

namespace Snappy

/-! ## Constants of the platform headers -/

/-- Modelled from the spec: `MAXPATHLEN` is declared by a system header that is not part of
the repository; the spec gives the fixed maximum path length as 1024 bytes. -/
def MAXPATHLEN : Nat := 1024

/-- Modelled from the spec: the "name returned" flag bit `ATTR_CMN_NAME` is declared by the
system header `sys/attr.h`, not by the repository; it is the lowest bit of `commonattr`. -/
def ATTR_CMN_NAME : Nat := 1

/-- Modelled from the spec: `sizeof(char *)` of the 64-bit targets the library is built for;
the index of the list has 257 slots of this size. -/
def sizeof_ptr : Nat := 8

/-- Modelled from the spec: `ERR_SUCCESS` is declared by `mach/error.h`, not by the
repository; it is the success code 0, distinct from the error value -1. -/
def ERR_SUCCESS : Int := 0

/-- The literal `APPLESNAP`, "com.apple.os.update-", as its 20 character codes. -/
def APPLESNAP : List Nat :=
  [99, 111, 109, 46, 97, 112, 112, 108, 101, 46, 111, 115, 46, 117, 112, 100, 97, 116, 101, 45]

/-! ## C strings and byte stores -/

/-- The C string held by a character array: the bytes before the first NUL. -/
def cstr (a : List Nat) : List Nat := a.takeWhile (fun c => c != 0)

/-- The library call `strlen` on a character array. -/
def strlen (a : List Nat) : Nat := (cstr a).length

/-- The store `buf[i] = v`. -/
def poke (buf : Nat → Nat) (i v : Nat) : Nat → Nat := fun j => if j = i then v else buf j

/-- The library call `strncpy(dst, src, n)` into a byte store: the first `n` bytes at `dst`
become the string of `src`, padded with NUL. -/
def strncpy (mem : Nat → Nat) (dst : Nat) (src : List Nat) (n : Nat) : Nat → Nat :=
  fun a => if dst ≤ a ∧ a < dst + n then (cstr src).getD (a - dst) 0 else mem a

/-- Reading a C string from a byte store at offset `off`, looking at no more than `fuel`
bytes: `none` when no NUL is found among them. -/
def cstrAt (m : Nat → Nat) : Nat → Nat → Option (List Nat)
  | _, 0 => none
  | off, fuel + 1 =>
    if m off = 0 then some [] else (cstrAt m (off + 1) fuel).map (fun s => m off :: s)

/-! ## Snapshot lister -/

/-- The fields of `val_attrs_t` that the lister reads, as seen when the struct is laid over
some byte offset of the page buffer: `length`, `returned.commonattr` and the array `name`. -/
structure val_attrs where
  length : Nat
  returned_commonattr : Nat
  name : List Nat

/-- One call of `fs_snapshot_list`: its return value and the buffer it filled, viewed as a
`val_attrs_t` at each byte offset. -/
structure Page where
  retcount : Int
  buf : Nat → val_attrs

/-- What a directory handle and the allocator answer during one call of
`copy_snapshot_list`: the pages delivered by successive `fs_snapshot_list` calls (once the
list is used up the primitive returns 0, end of stream), the address `calloc(count, size)`
returns, the address `reallocf(ptr, size)` returns (0 is failure), the bytes found in
memory that `reallocf` adds without initialising, by block offset, and whether the `strdup`
of `copy_first_snapshot` (line 63) finds memory for its copy. -/
structure Env where
  pages : List Page
  calloc : Nat → Nat → Nat
  reallocf : Nat → Nat → Nat
  junk : Nat → Nat
  strdup_ok : Bool

/-- The list handed to the caller: the address `snapshots` and the allocation behind it,
namely its size, the pointers `snapshots[i]` and its bytes by block offset. -/
structure SnapshotList where
  snapshots : Nat
  snapshots_size : Nat
  slots : Nat → Nat
  bytes : Nat → Nat

/-- The local variables of `copy_snapshot_list` inside the paging loop. -/
structure LoopState where
  list : SnapshotList
  nameOffset : Nat
  snapidx : Nat

/-- The diagnostics `copy_snapshot_list` prints on standard error. -/
inductive Diag where
  | calloc_failed
  | too_many
  | realloc_failed
  | paging_failed
  deriving DecidableEq, Repr

/-- The result of `copy_snapshot_list`: the returned pointer (`none` is `NULL`) and the
diagnostic printed, if any. -/
structure Outcome where
  ret : Option SnapshotList
  diag : Option Diag

/-- Lines 106 to 109: the slot `snapshots[snapidx]` receives the address
`(char *)snapshots + nameOffset`, the name is copied there, and both counters advance. -/
def store (l : SnapshotList) (st : LoopState) (name : List Nat) (size : Nat) : LoopState :=
  { list :=
      { l with
        slots := poke l.slots st.snapidx (l.snapshots + st.nameOffset)
        bytes := strncpy l.bytes st.nameOffset name size }
    nameOffset := st.nameOffset + size
    snapidx := st.snapidx + 1 }

/-- The body of the `for` loop for one record `entry`: lines 92 to 110. -/
def visit (env : Env) (e : val_attrs) (st : LoopState) : Except Outcome LoopState :=
  if e.returned_commonattr &&& ATTR_CMN_NAME ≠ 0 then
    let size := strlen e.name + 1
    if st.snapidx > 255 then
      .error { ret := some st.list, diag := some Diag.too_many }
    else if st.nameOffset + size > st.list.snapshots_size then
      let snapshots_size := st.list.snapshots_size + MAXPATHLEN
      let snapshots := env.reallocf st.list.snapshots snapshots_size
      if snapshots = 0 then
        .error { ret := none, diag := some Diag.realloc_failed }
      else
        .ok (store { st.list with snapshots := snapshots, snapshots_size := snapshots_size }
          st e.name size)
    else .ok (store st.list st e.name size)
  else .ok st

/-- The `for` loop over the `retcount` records of one page: `n` records are still to be
visited and `entry` is the byte offset of the next one, advanced by its `length` field. -/
def scan_page (env : Env) (buf : Nat → val_attrs) : Nat → Nat → LoopState → Except Outcome LoopState
  | 0, _, st => .ok st
  | n + 1, entry, st =>
    match visit env (buf entry) st with
    | .error o => .error o
    | .ok st1 => scan_page env buf n (entry + (buf entry).length) st1

/-- The `while` loop over the pages and the code after it: lines 87 to 122. -/
def list_loop (env : Env) : List Page → LoopState → Outcome
  | [], st => { ret := some st.list, diag := none }
  | p :: ps, st =>
    if p.retcount > 0 then
      match scan_page env p.buf p.retcount.toNat 0 st with
      | .error o => o
      | .ok st1 => list_loop env ps st1
    else if p.retcount < 0 then { ret := none, diag := some Diag.paging_failed }
    else { ret := some st.list, diag := none }

/-- The function `copy_snapshot_list`. -/
def copy_snapshot_list (env : Env) : Outcome :=
  let nameOffset := 257 * sizeof_ptr
  let snapshots_size := nameOffset + MAXPATHLEN
  let snapshots := env.calloc snapshots_size 1
  if snapshots = 0 then { ret := none, diag := some Diag.calloc_failed }
  else
    list_loop env env.pages
      { list :=
          { snapshots := snapshots
            snapshots_size := snapshots_size
            slots := fun _ => 0
            bytes := fun off => if off < snapshots_size then 0 else env.junk off }
        nameOffset := nameOffset
        snapidx := 0 }

/-- Reading the string a pointer `p` of the list points to: defined when `p` points into the
name storage of the allocation and a NUL follows before its end, `none` otherwise (a pointer
outside the live allocation must not be read). -/
def SnapshotList.str (l : SnapshotList) (p : Nat) : Option (List Nat) :=
  if l.snapshots + 257 * sizeof_ptr ≤ p ∧ p < l.snapshots + l.snapshots_size then
    cstrAt l.bytes (p - l.snapshots) (l.snapshots + l.snapshots_size - p)
  else none

/-- The entries a caller finds in the list: the slots before the first `NULL` slot among the
257 of the index, each read as a string. -/
def SnapshotList.entries (l : SnapshotList) : List (Option (List Nat)) :=
  ((List.range 257).takeWhile (fun i => l.slots i != 0)).map (fun i => l.str (l.slots i))

/-! ## Snapshot query API -/

/-- The scan of `snapshot_check` from slot `i` on, over at most `fuel` slots: `none` is a
read outside the allocation. -/
def check_scan (l : SnapshotList) (name : List Nat) : Nat → Nat → Option Bool
  | 0, _ => none
  | fuel + 1, i =>
    if l.slots i = 0 then some false
    else
      match l.str (l.slots i) with
      | none => none
      | some s => if cstr name = s then some true else check_scan l name fuel (i + 1)

/-- The function `snapshot_check`; `none` stands for a read through a pointer that does not
point into the list. -/
def snapshot_check (env : Env) (name : List Nat) : Option Bool :=
  match (copy_snapshot_list env).ret with
  | none => some false
  | some l => check_scan l name 257 0

/-- The function `copy_first_snapshot`.  The inner `none` is `NULL`; the outer `none` is a
read through a pointer that does not point into the list.  `strdup` (line 63) first reads
the string behind `snapshots[0]` and then answers with a copy of it, or with `NULL` when it
finds no memory. -/
def copy_first_snapshot (env : Env) : Option (Option (List Nat)) :=
  match (copy_snapshot_list env).ret with
  | none => some none
  | some l =>
    if l.slots 0 ≠ 0 then
      (l.str (l.slots 0)).map (fun s => if env.strdup_ok then some s else none)
    else some none

/-! ## What a stream delivers -/

/-- The records of a page as the traversal meets them: `n` records from byte offset `entry`. -/
def records (buf : Nat → val_attrs) : Nat → Nat → List val_attrs
  | 0, _ => []
  | n + 1, entry => buf entry :: records buf n (entry + (buf entry).length)

/-- The records delivered by a stream before its first return that is not positive. -/
def delivered : List Page → List val_attrs
  | [] => []
  | p :: ps => if p.retcount > 0 then records p.buf p.retcount.toNat 0 ++ delivered ps else []

/-- The return value that ends the stream: the first one that is not positive, 0 when the
pages are used up. -/
def streamEnd : List Page → Int
  | [] => 0
  | p :: ps => if p.retcount > 0 then streamEnd ps else p.retcount

/-- The records that have the name flag set. -/
def named (rs : List val_attrs) : List val_attrs :=
  rs.filter (fun e => e.returned_commonattr &&& ATTR_CMN_NAME != 0)

/-- The names of the named records a stream delivers, in delivery order. -/
def deliveredNames (pages : List Page) : List (List Nat) :=
  (named (delivered pages)).map (fun e => cstr e.name)

/-- The loop body applied to a sequence of records in turn, stopping at the first return. -/
def visitAll (env : Env) : List val_attrs → LoopState → Except Outcome LoopState
  | [], st => .ok st
  | e :: es, st =>
    match visit env e st with
    | .error o => .error o
    | .ok st1 => visitAll env es st1

/-- The name storage of a list holds the string `s` with its NUL at block offset `off`. -/
def Stored (l : SnapshotList) (off : Nat) (s : List Nat) : Prop :=
  ∀ j, j ≤ s.length → l.bytes (off + j) = s.getD j 0

/-- The first `k` slots of a list are set and all later ones are `NULL`. -/
def Filled (k : Nat) (l : SnapshotList) : Prop :=
  (∀ i, i < k → l.slots i ≠ 0) ∧ (∀ i, k ≤ i → l.slots i = 0)

/-- The loop invariant that ties the state to the names copied so far, each slot pointing at
its name inside the current allocation. -/
structure Inv (names : List (List Nat)) (st : LoopState) : Prop where
  idx : st.snapidx = names.length
  cap : names.length ≤ 256
  base : st.list.snapshots ≠ 0
  lo : 257 * sizeof_ptr ≤ st.nameOffset
  hi : st.nameOffset ≤ st.list.snapshots_size
  free : ∀ i, names.length ≤ i → st.list.slots i = 0
  held : ∀ i (h : i < names.length), ∃ off, st.list.slots i = st.list.snapshots + off ∧
    257 * sizeof_ptr ≤ off ∧ off + names[i].length + 1 ≤ st.nameOffset ∧
    Stored st.list off names[i]

/-- The part of the loop invariant that holds whatever the allocator answers: the slots
below `snapidx` are set, the others are `NULL`, and at most 256 are set. -/
structure Shape (st : LoopState) : Prop where
  filled : Filled st.snapidx st.list
  cap : st.snapidx ≤ 256
  pos : 0 < st.nameOffset

/-- The code after the paging loop, lines 117 to 122, for the return value that ended it. -/
def finish (pages : List Page) (st : LoopState) : Outcome :=
  if streamEnd pages < 0 then { ret := none, diag := some Diag.paging_failed }
  else { ret := some st.list, diag := none }

/-- Every reallocation succeeds without moving the block. -/
def InPlace (env : Env) : Prop := ∀ p sz, env.reallocf p sz = p

/-- Every named record delivered has its name NUL-terminated within `MAXPATHLEN` bytes. -/
def NamesFit (pages : List Page) : Prop :=
  ∀ e ∈ named (delivered pages), strlen e.name + 1 ≤ MAXPATHLEN

/-! ## Machine integers -/

/-- Modelled from the spec: `INT_MAX` of `limits.h`, which is not part of the repository;
the library is built for targets whose `int` has 32 bits. -/
def INT_MAX : Nat := 2 ^ 31 - 1

/-- Modelled from the spec: the modulus of `size_t` arithmetic on the 64-bit targets the
library is built for; `size_t` is declared by a system header. -/
def SIZE_MODULUS : Nat := 2 ^ 64

/-- Modelled from the spec: the largest value of the signed 64-bit `CFIndex` of
CoreFoundation, which is not part of the repository. -/
def CFINDEX_MAX : Nat := 2 ^ 63 - 1

/-! ## Hex encoding -/

/-- The uppercase hexadecimal digit of a nibble, as `%X` prints it. -/
def hexDigit (n : Nat) : Nat := if n < 10 then 48 + n else 55 + n

/-- The call `sprintf(buf + off, "%02X", v)` for an `unsigned char` value: two digits and the
terminating NUL. -/
def sprintf_02X (buf : Nat → Nat) (off : Nat) (v : Fin 256) : Nat → Nat :=
  poke (poke (poke buf off (hexDigit (v.val / 16))) (off + 1) (hexDigit (v.val % 16))) (off + 2) 0

/-- Line 133 for the counter value `i`, in one address space: the byte at address `hash + i`
is read as an `unsigned char` and printed at address `buf + i*2`. -/
def sha1_step (hash buf i : Nat) (mem : Nat → Nat) : Nat → Nat :=
  sprintf_02X mem (buf + i * 2) (Fin.ofNat (mem (hash + i)))

/-- The `for` loop of `sha1_to_str` after `i` iterations, in one address space.  The counter
is an `int`: an iteration whose `i*2` or `i++` exceeds `INT_MAX` is undefined behaviour,
`none`. -/
def sha1_loop (hash buf : Nat) : Nat → (Nat → Nat) → Option (Nat → Nat)
  | 0, mem => some mem
  | i + 1, mem =>
    match sha1_loop hash buf i mem with
    | none => none
    | some m =>
      if i * 2 > INT_MAX ∨ i + 1 > INT_MAX then none else some (sha1_step hash buf i m)

/-- The function `sha1_to_str` in one address space, its two pointers being addresses: the
return value and the memory afterwards, `none` when the run is undefined.  The guard of
line 127 is computed in `size_t`, so `hashlen*2+1` wraps at `2^64`; the store of line 135
uses `i*2` in `int` with `i = hashlen`. -/
def sha1_to_str (mem : Nat → Nat) (hash hashlen buf buflen : Nat) :
    Option (Int × (Nat → Nat)) :=
  if buflen < (hashlen * 2 + 1) % SIZE_MODULUS then some (-1, mem)
  else
    match sha1_loop hash buf hashlen mem with
    | none => none
    | some m =>
      if hashlen * 2 > INT_MAX then none
      else some (ERR_SUCCESS, poke m (buf + hashlen * 2) 0)

/-- The memory after `i` iterations of the loop when the counter does not overflow. -/
def sha1_writes (hash buf : Nat) : Nat → (Nat → Nat) → (Nat → Nat)
  | 0, mem => mem
  | i + 1, mem => sha1_step hash buf i (sha1_writes hash buf i mem)

/-- The digits of the first `i` bytes of a digest printed over a destination that the digest
is not part of. -/
def hexLoop (hash : Nat → Fin 256) : Nat → (Nat → Nat) → (Nat → Nat)
  | 0, buf => buf
  | i + 1, buf => sprintf_02X (hexLoop hash i buf) (i * 2) (hash i)

/-- The two hex characters of one byte. -/
def hexByte (b : Fin 256) : List Nat := [hexDigit (b.val / 16), hexDigit (b.val % 16)]

/-- The hex encoding of a digest: two characters per byte, no separators. -/
def hexChars : List (Fin 256) → List Nat
  | [] => []
  | b :: d => hexByte b ++ hexChars d

/-- The bytes of a digest by index. -/
def bytePtr (d : List (Fin 256)) : Nat → Fin 256 := fun i => d.getD i 0

/-- The bytes found at address `hash` on, as `unsigned char` values. -/
def digestView (mem : Nat → Nat) (hash : Nat) : Nat → Fin 256 :=
  fun i => Fin.ofNat (mem (hash + i))

/-- The bytes found at address `buf` on. -/
def bufView (mem : Nat → Nat) (buf : Nat) : Nat → Nat := fun j => mem (buf + j)

/-- The digest of `hashlen` bytes at address `hash` lies outside the addresses `buf` to
`buf + 2*hashlen` that the encoding writes. -/
def Apart (hash hashlen buf : Nat) : Prop :=
  ∀ i, i < hashlen → (hash + i < buf ∨ buf + 2 * hashlen < hash + i)

/-- The memory holds the digest `d` at address `hash`. -/
def HoldsDigest (mem : Nat → Nat) (hash : Nat) (d : List (Fin 256)) : Prop :=
  ∀ i, i < d.length → mem (hash + i) = (bytePtr d i).val

/-- The string `sha1_to_str` leaves at `buf`, `none` when it fails or is undefined. -/
def hexString (mem : Nat → Nat) (hash hashlen buf buflen : Nat) : Option (List Nat) :=
  match sha1_to_str mem hash hashlen buf buflen with
  | none => none
  | some r => if r.1 = ERR_SUCCESS then cstrAt (bufView r.2 buf) 0 buflen else none

/-- The value of a hex digit character. -/
def hexVal (c : Nat) : Nat := if c ≤ 57 then c - 48 else c - 55

/-- Modelled from the spec: the test-only decoding helper of the round-trip property is not
in the repository; it reads two hex characters per byte. -/
def hex_decode : List Nat → List (Fin 256)
  | hi :: lo :: rest => Fin.ofNat (hexVal hi * 16 + hexVal lo) :: hex_decode rest
  | _ => []

/-- A memory that holds the digest `d` at addresses 1 to `d.length` and zero everywhere
else: the digest of `copyBootHash` followed by the fresh zeroed block `calloc` returns. -/
def digestMem (d : List (Fin 256)) : Nat → Nat :=
  fun a => if a = 0 then 0 else (d.getD (a - 1) 0).val

/-- The contents of a buffer of `n` bytes. -/
def bufferOf (m : Nat → Nat) (n : Nat) : List Nat := (List.range n).map m

/-! ## Boot hash resolver -/

/-- A property value of the device tree: a binary blob, or a value of some other type. -/
inductive CFValue where
  | data (bytes : List (Fin 256))
  | other

/-- The device tree and the allocator as `copyBootHash` and `copy_system_snapshot` see them:
whether the port of `IODeviceTree:/chosen` is valid, the two properties, the C string that
CoreFoundation (not part of the repository) produces from a blob through
`CFStringCreateFromExternalRepresentation` and `CFStringGetCString`, whether the `calloc`
of line 183 succeeds and whether the `malloc` of line 208 succeeds. -/
structure Registry where
  chosen_valid : Bool
  root_snapshot_name : Option CFValue
  boot_manifest_hash : Option CFValue
  utf8 : List (Fin 256) → List Nat
  calloc_ok : Bool
  malloc_ok : Bool

/-- What a call of `copyBootHash` or `copy_system_snapshot` leaves: the buffer returned
(`none` is `NULL`), the flag `READ_NEW_IORegistryEntry` afterwards, and whether the run met
an undefined step (a store through a `NULL` destination, or an integer overflow), in which
case nothing is said about the pointer. -/
structure Returned where
  ptr : Option (List Nat)
  flag : Bool
  undefined : Bool

/-- The function `copyBootHash`.  The hex branch passes the digest and the fresh zeroed block
of `calloc` to `sha1_to_str`; neither `calloc` result is checked by the code, and the one of
the string branch is handed to CoreFoundation. -/
def copyBootHash (reg : Registry) (READ_NEW_IORegistryEntry : Bool) : Returned :=
  if !reg.chosen_valid then ⟨none, READ_NEW_IORegistryEntry, false⟩
  else
    let looked : Option CFValue × Bool :=
      match reg.root_snapshot_name with
      | none => (reg.boot_manifest_hash, false)
      | some v => (some v, READ_NEW_IORegistryEntry)
    match looked.1 with
    | none => ⟨none, looked.2, false⟩
    | some CFValue.other => ⟨none, looked.2, false⟩
    | some (CFValue.data bytes) =>
      if looked.2 then ⟨some (reg.utf8 bytes ++ [0]), looked.2, false⟩
      else
        let length := bytes.length * 2 + 1
        if length > CFINDEX_MAX ∨ reg.calloc_ok = false then ⟨none, looked.2, true⟩
        else
          match sha1_to_str (digestMem bytes) 1 bytes.length (1 + bytes.length) length with
          | none => ⟨none, looked.2, true⟩
          | some r =>
            if r.1 ≠ ERR_SUCCESS then ⟨none, looked.2, false⟩
            else ⟨some (bufferOf (bufView r.2 (1 + bytes.length)) length), looked.2, false⟩

/-- The function `copy_system_snapshot`; the `malloc` result is not checked by the code, so
a `NULL` is written through. -/
def copy_system_snapshot (reg : Registry) (READ_NEW_IORegistryEntry : Bool) : Returned :=
  let r := copyBootHash reg READ_NEW_IORegistryEntry
  if r.undefined then r
  else if r.flag then r
  else
    match r.ptr with
    | none => ⟨none, r.flag, false⟩
    | some hash =>
      if reg.malloc_ok = false then ⟨none, r.flag, true⟩
      else ⟨some (APPLESNAP ++ cstr hash ++ [0]), r.flag, false⟩

/-- The string a returned buffer holds. -/
def resultString (r : Returned) : Option (List Nat) := r.1.map cstr

/-! ## Concrete streams and allocators -/

/-- A snapshot name of 60 characters: the literal of `APPLESNAP`, 37 zeros and the three
decimal digits of `i`. -/
def snapName (i : Nat) : List Nat :=
  APPLESNAP ++ List.replicate 37 48 ++ [48 + i / 100 % 10, 48 + i / 10 % 10, 48 + i % 10]

/-- A page buffer that holds nothing. -/
def emptyBuf : Nat → val_attrs :=
  fun _ => { length := 0, returned_commonattr := 0, name := [] }

/-- A page with one record of 96 bytes at offset 0 that carries the name `snapName i`, the
returned attributes being `ATTR_CMN_NAME` and `ATTR_CMN_RETURNED_ATTRS`. -/
def onePage (i : Nat) : Page :=
  { retcount := 1
    buf := fun off =>
      if off = 0 then
        { length := 96, returned_commonattr := 0x80000001
          name := snapName i ++ List.replicate (MAXPATHLEN - 60) 0 }
      else emptyBuf off }

/-- A stream of `n` pages with one snapshot each, then end of stream. -/
def streamOf (n : Nat) : List Page := (List.range n).map onePage

/-- Seventeen snapshots, and an allocator whose `reallocf` succeeds by moving the block. -/
def envMoved : Env :=
  { pages := streamOf 17
    calloc := fun _ _ => 0x100000
    reallocf := fun p _ => p + 0x10000
    junk := fun _ => 0xAA
    strdup_ok := true }

/-- A stream of `n` snapshots, and an allocator whose `reallocf` grows the block in place. -/
def envInPlace (n : Nat) : Env :=
  { pages := streamOf n
    calloc := fun _ _ => 0x100000
    reallocf := fun p _ => p
    junk := fun _ => 0xAA
    strdup_ok := true }

/-- A stream of 257 snapshots, and an allocator that has no memory left. -/
def envNoMem : Env :=
  { pages := streamOf 257
    calloc := fun _ _ => 0
    reallocf := fun _ _ => 0
    junk := fun _ => 0xAA
    strdup_ok := true }

/-- One snapshot is delivered, then the paging primitive returns -1. -/
def envPagingError : Env :=
  { pages := streamOf 1 ++ [{ retcount := -1, buf := emptyBuf }]
    calloc := fun _ _ => 0x100000
    reallocf := fun p _ => p
    junk := fun _ => 0xAA
    strdup_ok := true }

/-- Three snapshots grown in place, and a `strdup` that finds no memory. -/
def envStrdupFails : Env := { envInPlace 3 with strdup_ok := false }

/-! ## Concrete device trees -/

/-- The bytes of the name "abc.snapshot". -/
def abcSnapshot : List (Fin 256) := [97, 98, 99, 46, 115, 110, 97, 112, 115, 104, 111, 116]

/-- A digest of 20 bytes: 00 11 22 up to FF, then 00 11 22 33. -/
def digest20 : List (Fin 256) :=
  [0x00, 0x11, 0x22, 0x33, 0x44, 0x55, 0x66, 0x77, 0x88, 0x99,
   0xAA, 0xBB, 0xCC, 0xDD, 0xEE, 0xFF, 0x00, 0x11, 0x22, 0x33]

/-- A digest of `2^30 + 1` zero bytes. -/
def hugeDigest : List (Fin 256) := List.replicate (2 ^ 30 + 1) 0

/-- A device tree with the modern property "abc.snapshot" and no legacy digest, the blob
being decoded byte for byte. -/
def regModern : Registry :=
  { chosen_valid := true
    root_snapshot_name := some (CFValue.data abcSnapshot)
    boot_manifest_hash := none
    utf8 := fun b => b.map Fin.val
    calloc_ok := true
    malloc_ok := true }

/-- A device tree with the legacy digest only. -/
def regLegacy : Registry :=
  { chosen_valid := true
    root_snapshot_name := none
    boot_manifest_hash := some (CFValue.data digest20)
    utf8 := fun b => b.map Fin.val
    calloc_ok := true
    malloc_ok := true }

/-- The legacy digest only, and no memory for the hex buffer. -/
def regLegacyNoMem : Registry := { regLegacy with calloc_ok := false }

/-- The legacy digest only, and the `malloc` of line 208 finds no memory. -/
def regLegacyNoMalloc : Registry := { regLegacy with malloc_ok := false }

/-- A legacy digest of `2^30 + 1` bytes. -/
def regLegacyHuge : Registry :=
  { regLegacy with boot_manifest_hash := some (CFValue.data hugeDigest) }

/-- A device tree with neither property. -/
def regNeither : Registry :=
  { chosen_valid := true
    root_snapshot_name := none
    boot_manifest_hash := none
    utf8 := fun b => b.map Fin.val
    calloc_ok := true
    malloc_ok := true }

/-- A device tree whose legacy property is present but is not a binary blob. -/
def regWrongType : Registry :=
  { chosen_valid := true
    root_snapshot_name := none
    boot_manifest_hash := some CFValue.other
    utf8 := fun b => b.map Fin.val
    calloc_ok := true
    malloc_ok := true }

/-- An uppercase hexadecimal digit character: one of 0-9, A-F. -/
def isUpperHex (c : Nat) : Prop := (48 ≤ c ∧ c ≤ 57) ∨ (65 ≤ c ∧ c ≤ 70)

/-! ## States, traces and stores for the internal claims -/

/-- The state in which `copy_snapshot_list` enters the paging loop once `calloc` has
succeeded: lines 71 to 86. -/
def initState (env : Env) : LoopState :=
  { list :=
      { snapshots := env.calloc (257 * sizeof_ptr + MAXPATHLEN) 1
        snapshots_size := 257 * sizeof_ptr + MAXPATHLEN
        slots := fun _ => 0
        bytes := fun off => if off < 257 * sizeof_ptr + MAXPATHLEN then 0 else env.junk off }
    nameOffset := 257 * sizeof_ptr
    snapidx := 0 }

/-- The loop body, reached for record `e` in state `st`, enters the growth branch and
`reallocf` answers `NULL`. -/
def GrowthFailsAt (env : Env) (e : val_attrs) (st : LoopState) : Prop :=
  e.returned_commonattr &&& ATTR_CMN_NAME ≠ 0 ∧ ¬ st.snapidx > 255 ∧
  st.nameOffset + (strlen e.name + 1) > st.list.snapshots_size ∧
  env.reallocf st.list.snapshots (st.list.snapshots_size + MAXPATHLEN) = 0

/-- A buffer-growth reallocation fails during the call: the initial allocation succeeds,
the loop works through the records `pre` and reaches the record `e` in a state where growth
is needed and `reallocf` answers `NULL`. -/
def ReallocFails (env : Env) : Prop :=
  env.calloc (257 * sizeof_ptr + MAXPATHLEN) 1 ≠ 0 ∧
  ∃ pre e post st, delivered env.pages = pre ++ e :: post ∧
    visitAll env pre (initState env) = .ok st ∧ GrowthFailsAt env e st

/-- Seventeen snapshots, and an allocator whose `reallocf` fails. -/
def envReallocFail : Env :=
  { pages := streamOf 17
    calloc := fun _ _ => 0x100000
    reallocf := fun _ _ => 0
    junk := fun _ => 0xAA
    strdup_ok := true }

/-- The state reached when the loop has worked through the records `rs`, the state before
them when it returned on the way. -/
def stateAfter (env : Env) (rs : List val_attrs) : LoopState :=
  match visitAll env rs (initState env) with
  | .ok st => st
  | .error _ => initState env

/-- One execution of the name copy of line 108: the block offset `dst` the name goes to
(the value of `nameOffset` before it is advanced), the number `size` of bytes copied, the
buffer size `size_before` when the record is reached and the buffer size `snapshots_size`
at the time of the copy. -/
structure NameCopy where
  dst : Nat
  size : Nat
  size_before : Nat
  snapshots_size : Nat

/-- The name copies the loop body performs on a sequence of records from state `st`, in
order, up to the first return. -/
def copies (env : Env) : List val_attrs → LoopState → List NameCopy
  | [], _ => []
  | e :: es, st =>
    match visit env e st with
    | .error _ => []
    | .ok st1 =>
      if e.returned_commonattr &&& ATTR_CMN_NAME ≠ 0 then
        { dst := st.nameOffset, size := strlen e.name + 1
          size_before := st.list.snapshots_size
          snapshots_size := st1.list.snapshots_size } :: copies env es st1
      else copies env es st1

/-- The name copies of one call of `copy_snapshot_list`. -/
def copy_snapshot_list_copies (env : Env) : List NameCopy :=
  if env.calloc (257 * sizeof_ptr + MAXPATHLEN) 1 = 0 then []
  else copies env (delivered env.pages) (initState env)

/-- The offsets of the loop state are in range: `nameOffset` lies past the index region and
not past the end of the buffer. -/
structure Room (st : LoopState) : Prop where
  lo : 257 * sizeof_ptr ≤ st.nameOffset
  hi : st.nameOffset ≤ st.list.snapshots_size

/-- The byte offset of record `k` of a page as the length fields give it: record 0 is at
offset 0 and record `k+1` follows record `k` by the `length` field of record `k`. -/
def recOffset (buf : Nat → val_attrs) : Nat → Nat
  | 0 => 0
  | k + 1 => recOffset buf k + (buf (recOffset buf k)).length

/-- The offsets of all `retcount` records of a page. -/
def pageOffsets (p : Page) : List Nat :=
  (List.range p.retcount.toNat).map (recOffset p.buf)

/-- The byte offsets at which the `for` loop reads a record, in order: the loop of
`scan_page` with the value of `entry` noted at each iteration. -/
def scan_trace (env : Env) (buf : Nat → val_attrs) : Nat → Nat → LoopState → List Nat
  | 0, _, _ => []
  | n + 1, entry, st =>
    entry ::
      match visit env (buf entry) st with
      | .error _ => []
      | .ok st1 => scan_trace env buf n (entry + (buf entry).length) st1

/-- The offsets read in each page the `while` loop enters, page by page: the loop of
`list_loop` with the trace of each page noted. -/
def list_trace (env : Env) : List Page → LoopState → List (List Nat)
  | [], _ => []
  | p :: ps, st =>
    if p.retcount > 0 then
      scan_trace env p.buf p.retcount.toNat 0 st ::
        match scan_page env p.buf p.retcount.toNat 0 st with
        | .error _ => []
        | .ok st1 => list_trace env ps st1
    else []

/-- The offsets read by one call of `copy_snapshot_list`, page by page. -/
def copy_snapshot_list_trace (env : Env) : List (List Nat) :=
  if env.calloc (257 * sizeof_ptr + MAXPATHLEN) 1 = 0 then []
  else list_trace env env.pages (initState env)

/-- The call returned from inside the loop body: capacity reached or growth failed. -/
def returnedInside (o : Outcome) : Bool :=
  o.diag == some Diag.too_many || o.diag == some Diag.realloc_failed

/-- Page by page, the offsets read are a non-empty initial part of the record offsets of the
page, and all of them for every page but the last one entered; for the last one too when
`lastFull` holds. -/
def TraceOK (lastFull : Bool) : List Page → List (List Nat) → Prop
  | _, [] => True
  | [], _ :: _ => False
  | p :: ps, t :: ts =>
    0 < p.retcount ∧ t ≠ [] ∧ t <+: pageOffsets p ∧
    ((ts ≠ [] ∨ lastFull = true) → t = pageOffsets p) ∧ TraceOK lastFull ps ts

/-- A page with two records of 96 bytes, at offsets 0 and 96, named `snapName i` and
`snapName (i + 1)`. -/
def twoPage (i : Nat) : Page :=
  { retcount := 2
    buf := fun off =>
      if off = 0 then
        { length := 96, returned_commonattr := 0x80000001
          name := snapName i ++ List.replicate (MAXPATHLEN - 60) 0 }
      else if off = 96 then
        { length := 96, returned_commonattr := 0x80000001
          name := snapName (i + 1) ++ List.replicate (MAXPATHLEN - 60) 0 }
      else emptyBuf off }

/-- Sixteen pages of one snapshot, then a page of two, and an allocator whose `reallocf`
fails: the first record of the last page needs growth. -/
def envShortPage : Env :=
  { pages := streamOf 16 ++ [twoPage 16]
    calloc := fun _ _ => 0x100000
    reallocf := fun _ _ => 0
    junk := fun _ => 0xAA
    strdup_ok := true }

/-- 256 pages of one snapshot, then a page of two, grown in place: the first record of the
last page is the 257th name. -/
def envFullPage : Env :=
  { pages := streamOf 256 ++ [twoPage 256]
    calloc := fun _ _ => 0x100000
    reallocf := fun p _ => p
    junk := fun _ => 0xAA
    strdup_ok := true }

/-- Two pages of two snapshots each, grown in place. -/
def envTwoPages : Env :=
  { pages := [twoPage 0, twoPage 2]
    calloc := fun _ _ => 0x100000
    reallocf := fun p _ => p
    junk := fun _ => 0xAA
    strdup_ok := true }

/-- A memory with the digest AB CD at address 100 and the byte 0x55 everywhere else. -/
def memAB : Nat → Nat := fun a => if a = 100 then 0xAB else if a = 101 then 0xCD else 0x55

/-! ## Lemmas on strings and stores -/

theorem cstr_ne_zero (a : List Nat) : ∀ c ∈ cstr a, c ≠ 0 := by
  intro c hc
  have h := List.mem_takeWhile_imp hc
  simpa using h

theorem cstrAt_stored (m : Nat → Nat) (s : List Nat) (hs : ∀ c ∈ s, c ≠ 0) :
    ∀ off fuel, (∀ j, j ≤ s.length → m (off + j) = s.getD j 0) → s.length < fuel →
      cstrAt m off fuel = some s := by
  induction s with
  | nil =>
    intro off fuel h hf
    cases fuel with
    | zero => simp at hf
    | succ f =>
      have h0 := h 0 (Nat.le_refl _)
      simp at h0
      simp [cstrAt, h0]
  | cons c s ih =>
    intro off fuel h hf
    cases fuel with
    | zero => simp at hf
    | succ f =>
      have h0 := h 0 (Nat.zero_le _)
      simp at h0
      have hc : c ≠ 0 := hs c (List.mem_cons_self _ _)
      have hrec : cstrAt m (off + 1) f = some s := by
        apply ih (fun d hd => hs d (List.mem_cons_of_mem _ hd))
        · intro j hj
          have := h (j + 1) (by simp; omega)
          simpa [Nat.add_assoc, Nat.add_comm 1 j] using this
        · simp at hf; omega
      simp [cstrAt, h0, hc, hrec]

theorem scan_page_eq (env : Env) (buf : Nat → val_attrs) :
    ∀ n entry st, scan_page env buf n entry st = visitAll env (records buf n entry) st := by
  intro n
  induction n with
  | zero => intro entry st; rfl
  | succ n ih =>
    intro entry st
    simp only [scan_page, records, visitAll]
    cases visit env (buf entry) st with
    | error o => rfl
    | ok st1 => exact ih _ _

theorem visitAll_append (env : Env) (a b : List val_attrs) :
    ∀ st, visitAll env (a ++ b) st =
      match visitAll env a st with
      | .error o => .error o
      | .ok st1 => visitAll env b st1 := by
  induction a with
  | nil => intro st; rfl
  | cons e a ih =>
    intro st
    simp only [List.cons_append, visitAll]
    cases visit env e st with
    | error o => rfl
    | ok st1 => exact ih st1

theorem list_loop_eq (env : Env) :
    ∀ ps st, list_loop env ps st =
      match visitAll env (delivered ps) st with
      | .error o => o
      | .ok st1 => finish ps st1 := by
  intro ps
  induction ps with
  | nil => intro st; simp [list_loop, delivered, visitAll, finish, streamEnd]
  | cons p ps ih =>
    intro st
    by_cases hp : p.retcount > 0
    · simp only [list_loop, delivered, if_pos hp, scan_page_eq, visitAll_append]
      cases h : visitAll env (records p.buf p.retcount.toNat 0) st with
      | error o => rfl
      | ok st1 =>
        simp only [ih st1]
        cases visitAll env (delivered ps) st1 with
        | error o => rfl
        | ok st2 => simp [finish, streamEnd, hp]
    · simp only [list_loop, delivered, if_neg hp, visitAll, finish, streamEnd]

/-! ## The loop invariant when reallocation leaves the block in place -/

theorem named_cons (e : val_attrs) (rs : List val_attrs) :
    named (e :: rs) =
      if e.returned_commonattr &&& ATTR_CMN_NAME ≠ 0 then e :: named rs else named rs := by
  by_cases h : e.returned_commonattr &&& ATTR_CMN_NAME ≠ 0
  · simp [named, List.filter_cons, h]
  · simp [named, List.filter_cons, h]

theorem store_inv (l : SnapshotList) (st : LoopState) (name : List Nat)
    (names : List (List Nat)) (hinv : Inv names st)
    (hslots : l.slots = st.list.slots) (hbytes : l.bytes = st.list.bytes)
    (hbase : l.snapshots = st.list.snapshots)
    (hroom : st.nameOffset + (strlen name + 1) ≤ l.snapshots_size)
    (hcap : names.length < 256) :
    Inv (names ++ [cstr name]) (store l st name (strlen name + 1)) := by
  refine ⟨?_, ?_, ?_, ?_, ?_, ?_, ?_⟩
  · simp [store, hinv.idx]
  · simp; omega
  · simp only [store]; rw [hbase]; exact hinv.base
  · have := hinv.lo
    simp only [store]; omega
  · simp only [store]; exact hroom
  · intro i hi
    simp at hi
    have hne : i ≠ st.snapidx := by rw [hinv.idx]; omega
    simp only [store, poke, if_neg hne, hslots]
    exact hinv.free i (by omega)
  · intro i hi
    simp at hi
    by_cases hlt : i < names.length
    · obtain ⟨off, h1, h2, h3, h4⟩ := hinv.held i hlt
      have hne : i ≠ st.snapidx := by rw [hinv.idx]; omega
      refine ⟨off, ?_, h2, ?_, ?_⟩
      · simp only [store, poke, if_neg hne, hslots, hbase]; exact h1
      · rw [List.getElem_append_left hlt]
        simp only [store]; omega
      · rw [List.getElem_append_left hlt]
        intro j hj
        have hlo : ¬ (st.nameOffset ≤ off + j ∧ off + j < st.nameOffset + (strlen name + 1)) := by
          omega
        simp only [store, strncpy, if_neg hlo, hbytes]
        exact h4 j hj
    · have hi2 : i = names.length := by omega
      subst hi2
      refine ⟨st.nameOffset, ?_, hinv.lo, ?_, ?_⟩
      · simp [store, poke, hinv.idx]
      · simp only [List.getElem_append_right (Nat.le_refl _), Nat.sub_self,
          List.getElem_cons_zero, store, strlen]
        omega
      · simp only [List.getElem_append_right (Nat.le_refl _), Nat.sub_self, List.getElem_cons_zero]
        intro j hj
        have hin : st.nameOffset ≤ st.nameOffset + j ∧
            st.nameOffset + j < st.nameOffset + (strlen name + 1) := by
          simp only [strlen]; omega
        simp only [store, strncpy, if_pos hin, Nat.add_sub_cancel_left]

theorem visit_unnamed (env : Env) (e : val_attrs) (st : LoopState)
    (h : ¬ (e.returned_commonattr &&& ATTR_CMN_NAME ≠ 0)) : visit env e st = .ok st := by
  simp only [visit, if_neg h]

theorem visit_full (env : Env) (e : val_attrs) (st : LoopState)
    (h : e.returned_commonattr &&& ATTR_CMN_NAME ≠ 0) (hfull : 255 < st.snapidx) :
    visit env e st = .error { ret := some st.list, diag := some Diag.too_many } := by
  simp only [visit, if_pos h]
  rw [if_pos hfull]

theorem visit_inv (env : Env) (hin : InPlace env) (e : val_attrs) (st : LoopState)
    (names : List (List Nat)) (hinv : Inv names st)
    (h : e.returned_commonattr &&& ATTR_CMN_NAME ≠ 0) (hcap : names.length < 256)
    (hfit : strlen e.name + 1 ≤ MAXPATHLEN) :
    ∃ st1, visit env e st = .ok st1 ∧ Inv (names ++ [cstr e.name]) st1 := by
  have hidx : ¬ st.snapidx > 255 := by rw [hinv.idx]; omega
  by_cases hgrow : st.nameOffset + (strlen e.name + 1) > st.list.snapshots_size
  · have hp : env.reallocf st.list.snapshots (st.list.snapshots_size + MAXPATHLEN) ≠ 0 := by
      rw [hin]; exact hinv.base
    refine ⟨store { st.list with
        snapshots := env.reallocf st.list.snapshots (st.list.snapshots_size + MAXPATHLEN)
        snapshots_size := st.list.snapshots_size + MAXPATHLEN } st e.name (strlen e.name + 1),
      ?_, store_inv _ st e.name names hinv rfl rfl (hin _ _) ?_ hcap⟩
    · simp only [visit, if_pos h, if_neg hidx, if_pos hgrow, if_neg hp]
    · have := hinv.hi
      show st.nameOffset + (strlen e.name + 1) ≤ st.list.snapshots_size + MAXPATHLEN
      omega
  · refine ⟨_, ?_, store_inv st.list st e.name names hinv rfl rfl rfl (by omega) hcap⟩
    simp only [visit, if_pos h, if_neg hidx, if_neg hgrow]

theorem visitAll_inv (env : Env) (hin : InPlace env) :
    ∀ (rs : List val_attrs) (names : List (List Nat)) (st : LoopState), Inv names st →
      (∀ e ∈ named rs, strlen e.name + 1 ≤ MAXPATHLEN) →
      (names.length + (named rs).length ≤ 256 →
        ∃ st1, visitAll env rs st = .ok st1 ∧
          Inv (names ++ (named rs).map (fun e => cstr e.name)) st1) ∧
      (256 < names.length + (named rs).length →
        ∃ st1, visitAll env rs st = .error { ret := some st1.list, diag := some Diag.too_many } ∧
          Inv ((names ++ (named rs).map (fun e => cstr e.name)).take 256) st1) := by
  intro rs
  induction rs with
  | nil =>
    intro names st hinv _
    constructor
    · intro _
      exact ⟨st, rfl, by simpa [named] using hinv⟩
    · intro h
      have := hinv.cap
      simp [named] at h
      omega
  | cons e rs ih =>
    intro names st hinv hfit
    by_cases hn : e.returned_commonattr &&& ATTR_CMN_NAME ≠ 0
    · have hcons : named (e :: rs) = e :: named rs := by rw [named_cons, if_pos hn]
      rw [hcons] at hfit ⊢
      by_cases hcap : names.length < 256
      · obtain ⟨st1, hv, hinv1⟩ :=
          visit_inv env hin e st names hinv hn hcap (hfit e (List.mem_cons_self _ _))
        have hrec := ih (names ++ [cstr e.name]) st1 hinv1
          (fun x hx => hfit x (List.mem_cons_of_mem _ hx))
        simp only [visitAll, hv, List.map_cons, List.length_cons]
        simp only [List.length_append, List.length_singleton, List.append_assoc,
          List.singleton_append] at hrec
        constructor
        · intro h
          exact hrec.1 (by omega)
        · intro h
          exact hrec.2 (by omega)
      · have hlen : names.length = 256 := by have := hinv.cap; omega
        constructor
        · intro h
          simp at h
          omega
        · intro _
          refine ⟨st, ?_, ?_⟩
          · simp only [visitAll, visit_full env e st hn (by rw [hinv.idx]; omega)]
          · rw [List.take_append_of_le_length (by omega), List.take_of_length_le (by omega)]
            exact hinv
    · have hcons : named (e :: rs) = named rs := by rw [named_cons, if_neg hn]
      rw [hcons] at hfit ⊢
      simp only [visitAll, visit_unnamed env e st hn]
      exact ih names st hinv hfit

theorem takeWhile_range (p : Nat → Bool) (n m : Nat) (hnm : n < m)
    (hlt : ∀ i, i < n → p i = true) (hn : p n = false) :
    (List.range m).takeWhile p = List.range n := by
  obtain ⟨k, rfl⟩ : ∃ k, m = n + (k + 1) := ⟨m - n - 1, by omega⟩
  rw [List.range_add, List.takeWhile_append_of_pos]
  · simp [List.range_succ_eq_map, hn]
  · intro i hi
    exact hlt i (List.mem_range.mp hi)

theorem entries_of_filled (l : SnapshotList) (k : Nat) (hk : k ≤ 256) (h : Filled k l) :
    l.entries = (List.range k).map (fun i => l.str (l.slots i)) := by
  unfold SnapshotList.entries
  rw [takeWhile_range _ k 257 (by omega)]
  · intro i hi
    simpa using h.1 i hi
  · simpa using h.2 k (Nat.le_refl _)

theorem str_of_stored (l : SnapshotList) (off : Nat) (s : List Nat)
    (hs : ∀ c ∈ s, c ≠ 0) (hlo : 257 * sizeof_ptr ≤ off)
    (hhi : off + s.length + 1 ≤ l.snapshots_size) (h : Stored l off s) :
    l.str (l.snapshots + off) = some s := by
  have hc : l.snapshots + 257 * sizeof_ptr ≤ l.snapshots + off ∧
      l.snapshots + off < l.snapshots + l.snapshots_size := by omega
  simp only [SnapshotList.str, if_pos hc, Nat.add_sub_cancel_left]
  exact cstrAt_stored l.bytes s hs off _ h (by omega)

theorem inv_filled (names : List (List Nat)) (st : LoopState) (hinv : Inv names st) :
    Filled names.length st.list := by
  constructor
  · intro i hi
    obtain ⟨off, h1, h2, _, _⟩ := hinv.held i hi
    rw [h1]
    simp only [sizeof_ptr] at h2
    omega
  · exact hinv.free

theorem inv_entries (names : List (List Nat)) (st : LoopState) (hinv : Inv names st)
    (hs : ∀ s ∈ names, ∀ c ∈ s, c ≠ 0) : st.list.entries = names.map some := by
  rw [entries_of_filled st.list names.length hinv.cap (inv_filled names st hinv)]
  apply List.ext_getElem
  · simp
  · intro i h1 h2
    simp at h1
    obtain ⟨off, e1, e2, e3, e4⟩ := hinv.held i h1
    simp only [List.getElem_map, List.getElem_range, e1]
    have := hinv.hi
    exact str_of_stored st.list off names[i] (hs _ (List.getElem_mem _)) e2 (by omega) e4

/-! ## The part of the invariant that holds for every allocator -/

theorem store_shape (l : SnapshotList) (st : LoopState) (name : List Nat) (size : Nat)
    (hs : Shape st) (hslots : l.slots = st.list.slots) (hcap : st.snapidx < 256) :
    Shape (store l st name size) := by
  refine ⟨⟨?_, ?_⟩, ?_, ?_⟩
  · intro i hi
    simp only [store] at hi
    by_cases he : i = st.snapidx
    · have := hs.pos
      simp only [store, poke, if_pos he]
      omega
    · simp only [store, poke, if_neg he, hslots]
      exact hs.filled.1 i (by omega)
  · intro i hi
    simp only [store] at hi
    have he : i ≠ st.snapidx := by omega
    simp only [store, poke, if_neg he, hslots]
    exact hs.filled.2 i (by omega)
  · simp only [store]; omega
  · have := hs.pos
    simp only [store]; omega

theorem visit_shape (env : Env) (e : val_attrs) (st : LoopState) (hs : Shape st) :
    (∀ st1, visit env e st = .ok st1 →
      Shape st1 ∧ st1.snapidx = st.snapidx + (named [e]).length) ∧
    (∀ o, visit env e st = .error o →
      o.ret = none ∨ (o.ret = some st.list ∧ st.snapidx = 256 ∧ (named [e]).length = 1)) := by
  by_cases hn : e.returned_commonattr &&& ATTR_CMN_NAME ≠ 0
  · have hlen : (named [e]).length = 1 := by rw [named_cons, if_pos hn]; rfl
    by_cases hfull : 255 < st.snapidx
    · rw [visit_full env e st hn hfull]
      constructor
      · intro st1 h; cases h
      · intro o h
        cases h
        have := hs.cap
        exact Or.inr ⟨rfl, by omega, hlen⟩
    · by_cases hgrow : st.nameOffset + (strlen e.name + 1) > st.list.snapshots_size
      · by_cases hp : env.reallocf st.list.snapshots (st.list.snapshots_size + MAXPATHLEN) = 0
        · simp only [visit, if_pos hn, if_neg hfull, if_pos hgrow, if_pos hp]
          constructor
          · intro st1 h; cases h
          · intro o h; cases h; exact Or.inl rfl
        · simp only [visit, if_pos hn, if_neg hfull, if_pos hgrow, if_neg hp]
          constructor
          · intro st1 h
            cases h
            exact ⟨store_shape _ st _ _ hs rfl (by omega), by rw [hlen]; rfl⟩
          · intro o h; cases h
      · simp only [visit, if_pos hn, if_neg hfull, if_neg hgrow]
        constructor
        · intro st1 h
          cases h
          exact ⟨store_shape _ st _ _ hs rfl (by omega), by rw [hlen]; rfl⟩
        · intro o h; cases h
  · have hlen : (named [e]).length = 0 := by rw [named_cons, if_neg hn]; rfl
    rw [visit_unnamed env e st hn]
    constructor
    · intro st1 h
      cases h
      exact ⟨hs, by rw [hlen]; rfl⟩
    · intro o h; cases h

theorem named_length_cons (e : val_attrs) (rs : List val_attrs) :
    (named (e :: rs)).length = (named [e]).length + (named rs).length := by
  by_cases hn : e.returned_commonattr &&& ATTR_CMN_NAME ≠ 0
  · simp only [named_cons, if_pos hn, List.length_cons]
    have : (named ([] : List val_attrs)).length = 0 := rfl
    omega
  · simp only [named_cons, if_neg hn]
    have : (named ([] : List val_attrs)).length = 0 := rfl
    omega

theorem visitAll_shape (env : Env) :
    ∀ (rs : List val_attrs) (st : LoopState), Shape st →
      (∀ st1, visitAll env rs st = .ok st1 →
        Shape st1 ∧ st1.snapidx = st.snapidx + (named rs).length) ∧
      (∀ o, visitAll env rs st = .error o →
        o.ret = none ∨
          ∃ l, o.ret = some l ∧ Filled 256 l ∧ 256 < st.snapidx + (named rs).length) := by
  intro rs
  induction rs with
  | nil =>
    intro st hs
    constructor
    · intro st1 h
      cases h
      exact ⟨hs, rfl⟩
    · intro o h; cases h
  | cons e rs ih =>
    intro st hs
    have hv := visit_shape env e st hs
    rw [named_length_cons]
    cases hvis : visit env e st with
    | error o1 =>
      simp only [visitAll, hvis]
      constructor
      · intro st1 h; cases h
      · intro o h
        cases h
        rcases hv.2 o1 hvis with h0 | ⟨h1, h2, h3⟩
        · exact Or.inl h0
        · refine Or.inr ⟨st.list, h1, ?_, by omega⟩
          have := hs.filled
          rwa [h2] at this
    | ok st1 =>
      simp only [visitAll, hvis]
      obtain ⟨hs1, hidx1⟩ := hv.1 st1 hvis
      have hrec := ih st1 hs1
      constructor
      · intro st2 h
        obtain ⟨hs2, hidx2⟩ := hrec.1 st2 h
        exact ⟨hs2, by omega⟩
      · intro o h
        rcases hrec.2 o h with h0 | ⟨l, h1, h2, h3⟩
        · exact Or.inl h0
        · exact Or.inr ⟨l, h1, h2, by omega⟩

/-- The state `copy_snapshot_list` enters the paging loop with. -/
theorem copy_snapshot_list_unfold (env : Env)
    (hc : env.calloc (257 * sizeof_ptr + MAXPATHLEN) 1 ≠ 0) :
    copy_snapshot_list env =
      match visitAll env (delivered env.pages)
        { list :=
            { snapshots := env.calloc (257 * sizeof_ptr + MAXPATHLEN) 1
              snapshots_size := 257 * sizeof_ptr + MAXPATHLEN
              slots := fun _ => 0
              bytes := fun off => if off < 257 * sizeof_ptr + MAXPATHLEN then 0 else env.junk off }
          nameOffset := 257 * sizeof_ptr
          snapidx := 0 } with
      | .error o => o
      | .ok st1 => finish env.pages st1 := by
  simp only [copy_snapshot_list, if_neg hc, list_loop_eq]

theorem copy_snapshot_list_filled (env : Env) (l : SnapshotList)
    (h : (copy_snapshot_list env).ret = some l) :
    Filled (min (deliveredNames env.pages).length 256) l := by
  by_cases hc : env.calloc (257 * sizeof_ptr + MAXPATHLEN) 1 = 0
  · simp [copy_snapshot_list, hc] at h
  · rw [copy_snapshot_list_unfold env hc] at h
    have hs0 : Shape
        { list :=
            { snapshots := env.calloc (257 * sizeof_ptr + MAXPATHLEN) 1
              snapshots_size := 257 * sizeof_ptr + MAXPATHLEN
              slots := fun _ => 0
              bytes := fun off => if off < 257 * sizeof_ptr + MAXPATHLEN then 0 else env.junk off }
          nameOffset := 257 * sizeof_ptr
          snapidx := 0 } :=
      ⟨⟨fun i hi => absurd hi (Nat.not_lt_zero _), fun _ _ => rfl⟩, by simp, by simp [sizeof_ptr]⟩
    have hsh := visitAll_shape env (delivered env.pages) _ hs0
    have hN : (deliveredNames env.pages).length = (named (delivered env.pages)).length := by
      simp [deliveredNames]
    rw [hN]
    cases hvis : visitAll env (delivered env.pages) _ with
    | error o =>
      rw [hvis] at h
      rcases hsh.2 o hvis with h0 | ⟨l1, h1, h2, h3⟩
      · simp only at h
        rw [h0] at h; cases h
      · simp only at h
        rw [h1] at h
        cases h
        simp only [Nat.zero_add] at h3
        rwa [Nat.min_eq_right (by omega)]
    | ok st1 =>
      rw [hvis] at h
      obtain ⟨hs1, hidx⟩ := hsh.1 st1 hvis
      simp only [finish] at h
      split at h
      · cases h
      · cases h
        have h1 := hs1.filled
        have h2 := hs1.cap
        simp only [Nat.zero_add] at hidx
        rw [← hidx, Nat.min_eq_left h2]
        exact h1

theorem deliveredNames_ne_zero (pages : List Page) :
    ∀ s ∈ deliveredNames pages, ∀ c ∈ s, c ≠ 0 := by
  intro s hs
  simp only [deliveredNames, List.mem_map] at hs
  obtain ⟨e, _, rfl⟩ := hs
  exact cstr_ne_zero e.name

/-- With the block left in place by every reallocation, the list holds the delivered names,
all of them up to 256 and the first 256 beyond that. -/
theorem copy_snapshot_list_in_place (env : Env)
    (hc : env.calloc (257 * sizeof_ptr + MAXPATHLEN) 1 ≠ 0) (hin : InPlace env)
    (hfit : NamesFit env.pages) :
    ((deliveredNames env.pages).length ≤ 256 → streamEnd env.pages = 0 →
      ∃ l, (copy_snapshot_list env).ret = some l ∧ (copy_snapshot_list env).diag = none ∧
        l.entries = (deliveredNames env.pages).map some) ∧
    (256 < (deliveredNames env.pages).length →
      ∃ l, (copy_snapshot_list env).ret = some l ∧
        (copy_snapshot_list env).diag = some Diag.too_many ∧
        l.entries = ((deliveredNames env.pages).take 256).map some) := by
  have hinv0 : Inv []
      { list :=
          { snapshots := env.calloc (257 * sizeof_ptr + MAXPATHLEN) 1
            snapshots_size := 257 * sizeof_ptr + MAXPATHLEN
            slots := fun _ => 0
            bytes := fun off => if off < 257 * sizeof_ptr + MAXPATHLEN then 0 else env.junk off }
        nameOffset := 257 * sizeof_ptr
        snapidx := 0 } :=
    ⟨rfl, by simp, hc, Nat.le_refl _, by simp, fun _ _ => rfl,
      fun i hi => absurd hi (Nat.not_lt_zero _)⟩
  have hmain := visitAll_inv env hin (delivered env.pages) [] _ hinv0 hfit
  have hN : (deliveredNames env.pages).length = (named (delivered env.pages)).length := by
    simp [deliveredNames]
  simp only [List.length_nil, Nat.zero_add, List.nil_append] at hmain
  rw [copy_snapshot_list_unfold env hc, hN]
  constructor
  · intro hle hend
    obtain ⟨st1, hv, hinv1⟩ := hmain.1 hle
    rw [hv]
    have hfin : finish env.pages st1 = { ret := some st1.list, diag := none } := by
      simp [finish, hend]
    exact ⟨st1.list, by simp only [hfin], by simp only [hfin],
      inv_entries _ st1 hinv1 (deliveredNames_ne_zero env.pages)⟩
  · intro hgt
    obtain ⟨st1, hv, hinv1⟩ := hmain.2 hgt
    rw [hv]
    refine ⟨st1.list, rfl, rfl, inv_entries _ st1 hinv1 ?_⟩
    intro s hs
    exact deliveredNames_ne_zero env.pages s (List.mem_of_mem_take hs)

theorem entries_length (l : SnapshotList) (k : Nat) (hk : k ≤ 256) (h : Filled k l) :
    l.entries.length = k := by
  rw [entries_of_filled l k hk h]
  simp

/-! ## The query API on top of the list -/

theorem copy_first_snapshot_null_iff (env : Env) :
    copy_first_snapshot env = some none ↔
      ((copy_snapshot_list env).ret = none ∨ deliveredNames env.pages = [] ∨
        (env.strdup_ok = false ∧
          ∃ l s, (copy_snapshot_list env).ret = some l ∧ l.str (l.slots 0) = some s)) := by
  cases h : (copy_snapshot_list env).ret with
  | none => simp [copy_first_snapshot, h]
  | some l =>
    have hf := copy_snapshot_list_filled env l h
    simp only [copy_first_snapshot, h]
    by_cases hN : deliveredNames env.pages = []
    · rw [hN] at hf
      have h0 : l.slots 0 = 0 := hf.2 0 (by simp)
      simp [h0, hN]
    · have hpos : 0 < (deliveredNames env.pages).length := List.length_pos.mpr hN
      have h0 : l.slots 0 ≠ 0 := hf.1 0 (by omega)
      rw [if_pos h0]
      cases hs : l.str (l.slots 0) <;> cases hd : env.strdup_ok <;> simp [hN, hs]

theorem copy_first_snapshot_null_iff_ok (env : Env) (hd : env.strdup_ok = true) :
    copy_first_snapshot env = some none ↔
      ((copy_snapshot_list env).ret = none ∨ deliveredNames env.pages = []) := by
  rw [copy_first_snapshot_null_iff, hd]
  simp

theorem copy_first_snapshot_head (env : Env) (l : SnapshotList) (s : List Nat)
    (h : (copy_snapshot_list env).ret = some l) (hs : l.entries.head? = some (some s)) :
    copy_first_snapshot env = some (if env.strdup_ok then some s else none) := by
  have hf := copy_snapshot_list_filled env l h
  rw [entries_of_filled l _ (Nat.min_le_right _ _) hf] at hs
  cases hk : min (deliveredNames env.pages).length 256 with
  | zero => rw [hk] at hs; simp at hs
  | succ k =>
    rw [hk] at hs hf
    have h0 : l.slots 0 ≠ 0 := hf.1 0 (by omega)
    simp only [List.range_succ_eq_map, List.map_cons, List.head?_cons, Option.some.injEq] at hs
    simp only [copy_first_snapshot, h, if_pos h0, hs, Option.map_some']

theorem copy_first_snapshot_in_place (env : Env)
    (hc : env.calloc (257 * sizeof_ptr + MAXPATHLEN) 1 ≠ 0) (hin : InPlace env)
    (hfit : NamesFit env.pages)
    (hok : streamEnd env.pages = 0 ∨ 256 < (deliveredNames env.pages).length) :
    copy_first_snapshot env =
      some (if env.strdup_ok then (deliveredNames env.pages).head? else none) := by
  have hmain := copy_snapshot_list_in_place env hc hin hfit
  have key : ∃ l, (copy_snapshot_list env).ret = some l ∧
      l.entries.head? = (deliveredNames env.pages).head?.map some := by
    by_cases hgt : 256 < (deliveredNames env.pages).length
    · obtain ⟨l, h1, _, h3⟩ := hmain.2 hgt
      refine ⟨l, h1, ?_⟩
      rw [h3]
      cases hd : deliveredNames env.pages with
      | nil => rw [hd] at hgt; simp at hgt
      | cons a t => simp
    · rcases hok with hend | h
      · obtain ⟨l, h1, _, h3⟩ := hmain.1 (by omega) hend
        refine ⟨l, h1, ?_⟩
        rw [h3]
        cases deliveredNames env.pages <;> simp
      · exact absurd h hgt
  obtain ⟨l, h1, h2⟩ := key
  cases hd : deliveredNames env.pages with
  | nil =>
    rw [List.head?_nil, ite_self]
    exact (copy_first_snapshot_null_iff env).mpr (Or.inr (Or.inl hd))
  | cons a t =>
    rw [hd] at h2
    rw [List.head?_cons]
    exact copy_first_snapshot_head env l a h1 h2

theorem copy_snapshot_list_in_place_entries (env : Env)
    (hc : env.calloc (257 * sizeof_ptr + MAXPATHLEN) 1 ≠ 0) (hin : InPlace env)
    (hfit : NamesFit env.pages)
    (hok : streamEnd env.pages = 0 ∨ 256 < (deliveredNames env.pages).length) :
    ∃ l, (copy_snapshot_list env).ret = some l ∧
      l.entries = ((deliveredNames env.pages).take 256).map some := by
  have hmain := copy_snapshot_list_in_place env hc hin hfit
  by_cases hgt : 256 < (deliveredNames env.pages).length
  · obtain ⟨l, h1, _, h3⟩ := hmain.2 hgt
    exact ⟨l, h1, h3⟩
  · rcases hok with hend | h
    · obtain ⟨l, h1, _, h3⟩ := hmain.1 (by omega) hend
      exact ⟨l, h1, by rw [h3, List.take_of_length_le (by omega)]⟩
    · exact absurd h hgt

theorem check_scan_names (l : SnapshotList) (names : List (List Nat)) (X : List Nat)
    (hf : Filled names.length l)
    (hstr : ∀ i (h : i < names.length), l.str (l.slots i) = some names[i]) :
    ∀ fuel i, i ≤ names.length → names.length < fuel + i →
      check_scan l X fuel i = some (decide (cstr X ∈ names.drop i)) := by
  intro fuel
  induction fuel with
  | zero => intro i h1 h2; omega
  | succ fuel ih =>
    intro i h1 h2
    by_cases hi : i = names.length
    · have h0 : l.slots i = 0 := hf.2 i (by omega)
      have hd : names.drop i = [] := List.drop_of_length_le (by omega)
      simp only [check_scan, if_pos h0, hd]
      simp
    · have hlt : i < names.length := by omega
      have h0 : l.slots i ≠ 0 := hf.1 i hlt
      have hd : names.drop i = names[i] :: names.drop (i + 1) := List.drop_eq_getElem_cons hlt
      simp only [check_scan, if_neg h0, hstr i hlt]
      rw [hd]
      by_cases heq : cstr X = names[i]
      · rw [if_pos heq, decide_eq_true (by rw [heq]; exact List.mem_cons_self _ _)]
      · rw [if_neg heq, ih (i + 1) (by omega) (by omega)]
        simp only [List.mem_cons, heq, false_or]

/-- With the block left in place the scan of `snapshot_check` decides membership among the
names of the list. -/
theorem snapshot_check_in_place (env : Env)
    (hc : env.calloc (257 * sizeof_ptr + MAXPATHLEN) 1 ≠ 0) (hin : InPlace env)
    (hfit : NamesFit env.pages)
    (hok : streamEnd env.pages = 0 ∨ 256 < (deliveredNames env.pages).length) (X : List Nat) :
    snapshot_check env X =
      some (decide (cstr X ∈ (deliveredNames env.pages).take 256)) := by
  obtain ⟨l, h1, h2⟩ := copy_snapshot_list_in_place_entries env hc hin hfit hok
  have hf := copy_snapshot_list_filled env l h1
  have hlen : ((deliveredNames env.pages).take 256).length =
      min (deliveredNames env.pages).length 256 := by
    rw [List.length_take, Nat.min_comm]
  rw [← hlen] at hf
  have hstr : ∀ i (h : i < ((deliveredNames env.pages).take 256).length),
      l.str (l.slots i) = some ((deliveredNames env.pages).take 256)[i] := by
    intro i h
    have hk : ((deliveredNames env.pages).take 256).length ≤ 256 := by
      rw [hlen]; exact Nat.min_le_right _ _
    have he := entries_of_filled l _ hk hf
    rw [h2] at he
    have hi := congrArg (fun (e : List (Option (List Nat))) => e[i]?) he
    simp only [List.getElem?_map, List.getElem?_eq_getElem h, Option.map_some',
      List.getElem?_range h] at hi
    exact (Option.some.inj hi).symm
  have hscan := check_scan_names l _ X hf hstr 257 0 (Nat.zero_le _)
    (by rw [hlen]; have := Nat.min_le_right (deliveredNames env.pages).length 256; omega)
  simp only [snapshot_check, h1, hscan, List.drop_zero]

/-! ## Hex encoding and the resolver -/

theorem INT_MAX_eq : INT_MAX = 2147483647 := by decide

theorem SIZE_MODULUS_eq : SIZE_MODULUS = 18446744073709551616 := by decide

theorem sha1_loop_some (mem : Nat → Nat) (hash buf : Nat) :
    ∀ n, n * 2 ≤ INT_MAX → sha1_loop hash buf n mem = some (sha1_writes hash buf n mem) := by
  intro n
  induction n with
  | zero => intro _; rfl
  | succ n ih =>
    intro h
    rw [INT_MAX_eq] at h
    have h1 : ¬ (n * 2 > INT_MAX ∨ n + 1 > INT_MAX) := by rw [INT_MAX_eq]; omega
    simp only [sha1_loop, ih (by rw [INT_MAX_eq]; omega), if_neg h1, sha1_writes]

theorem sha1_to_str_defined (mem : Nat → Nat) (hash hashlen buf buflen : Nat)
    (hL : hashlen < 2 ^ 30) (h : ¬ buflen < hashlen * 2 + 1) :
    sha1_to_str mem hash hashlen buf buflen =
      some (ERR_SUCCESS, poke (sha1_writes hash buf hashlen mem) (buf + hashlen * 2) 0) := by
  have hI : hashlen * 2 ≤ INT_MAX := by rw [INT_MAX_eq]; omega
  have hmod : (hashlen * 2 + 1) % SIZE_MODULUS = hashlen * 2 + 1 := by
    rw [SIZE_MODULUS_eq]; omega
  simp only [sha1_to_str, hmod, if_neg h, sha1_loop_some mem hash buf hashlen hI,
    if_neg (Nat.not_lt.mpr hI)]

theorem sha1_to_str_small (mem : Nat → Nat) (hash hashlen buf buflen : Nat)
    (hL : hashlen < 2 ^ 63) (h : buflen < hashlen * 2 + 1) :
    sha1_to_str mem hash hashlen buf buflen = some (-1, mem) := by
  have hmod : (hashlen * 2 + 1) % SIZE_MODULUS = hashlen * 2 + 1 := by
    rw [SIZE_MODULUS_eq]; omega
  simp only [sha1_to_str, hmod, if_pos h]

theorem sha1_to_str_overflow (mem : Nat → Nat) (hash hashlen buf buflen : Nat)
    (hg : ¬ buflen < (hashlen * 2 + 1) % SIZE_MODULUS) (hL : hashlen * 2 > INT_MAX) :
    sha1_to_str mem hash hashlen buf buflen = none := by
  simp only [sha1_to_str, if_neg hg, if_pos hL]
  cases sha1_loop hash buf hashlen mem <;> rfl

theorem sha1_writes_frame (mem : Nat → Nat) (hash buf : Nat) :
    ∀ n a, (a < buf ∨ buf + 2 * n < a) → sha1_writes hash buf n mem a = mem a := by
  intro n
  induction n with
  | zero => intro a _; rfl
  | succ n ih =>
    intro a ha
    have h1 : a ≠ buf + n * 2 + 2 := by omega
    have h2 : a ≠ buf + n * 2 + 1 := by omega
    have h3 : a ≠ buf + n * 2 := by omega
    simp only [sha1_writes, sha1_step, sprintf_02X, poke, if_neg h1, if_neg h2, if_neg h3]
    exact ih a (by omega)

theorem sha1_writes_agree (mem : Nat → Nat) (hash buf hashlen : Nat)
    (hdis : Apart hash hashlen buf) :
    ∀ n, n ≤ hashlen → ∀ j, sha1_writes hash buf n mem (buf + j) =
      hexLoop (digestView mem hash) n (bufView mem buf) j := by
  intro n
  induction n with
  | zero => intro _ j; rfl
  | succ n ih =>
    intro hn j
    have hread : sha1_writes hash buf n mem (hash + n) = mem (hash + n) := by
      apply sha1_writes_frame
      rcases hdis n (by omega) with h | h
      · exact Or.inl h
      · exact Or.inr (by omega)
    simp only [sha1_writes, sha1_step, hexLoop, sprintf_02X, poke, hread, ih (by omega) j,
      digestView]
    split_ifs <;> first | rfl | omega

theorem sha1_writes_hex (mem : Nat → Nat) (hash buf : Nat) :
    ∀ n j, j < 2 * n → ∃ v, v < 16 ∧ sha1_writes hash buf n mem (buf + j) = hexDigit v := by
  intro n
  induction n with
  | zero => intro j hj; omega
  | succ n ih =>
    intro j hj
    have hb := (Fin.ofNat (sha1_writes hash buf n mem (hash + n)) : Fin 256).isLt
    simp only [sha1_writes, sha1_step, sprintf_02X, poke]
    by_cases h2 : j = n * 2 + 1
    · refine ⟨_, ?_, by rw [if_neg (by omega), if_pos (by omega)]⟩
      omega
    · by_cases h3 : j = n * 2
      · refine ⟨_, ?_, by rw [if_neg (by omega), if_neg (by omega), if_pos (by omega)]⟩
        omega
      · obtain ⟨v, hv, he⟩ := ih j (by omega)
        exact ⟨v, hv, by rw [if_neg (by omega), if_neg (by omega), if_neg (by omega), he]⟩

theorem hexLoop_congr (h1 h2 : Nat → Fin 256) (buf : Nat → Nat) :
    ∀ n, (∀ i, i < n → h1 i = h2 i) → hexLoop h1 n buf = hexLoop h2 n buf := by
  intro n
  induction n with
  | zero => intro _; rfl
  | succ n ih =>
    intro h
    simp only [hexLoop, ih (fun i hi => h i (by omega)), h n (Nat.lt_succ_self n)]

theorem hexLoop_spec (hash : Nat → Fin 256) (buf : Nat → Nat) (n j : Nat) :
    hexLoop hash n buf j =
      if j < 2 * n then
        (if j % 2 = 0 then hexDigit ((hash (j / 2)).val / 16) else hexDigit ((hash (j / 2)).val % 16))
      else if j = 2 * n ∧ 0 < n then 0 else buf j := by
  induction n generalizing j with
  | zero => simp [hexLoop]
  | succ n ih =>
    simp only [hexLoop, sprintf_02X, poke, ih]
    by_cases h1 : j = n * 2 + 2
    · subst h1
      rw [if_pos rfl, if_neg (by omega), if_pos ⟨by omega, by omega⟩]
    · by_cases h2 : j = n * 2 + 1
      · subst h2
        have e : (n * 2 + 1) / 2 = n := by omega
        rw [if_neg h1, if_pos rfl, if_pos (by omega), if_neg (by omega), e]
      · by_cases h3 : j = n * 2
        · subst h3
          have e : (n * 2) / 2 = n := by omega
          rw [if_neg h1, if_neg h2, if_pos rfl, if_pos (by omega), if_pos (by omega), e]
        · rw [if_neg h1, if_neg h2, if_neg h3]
          by_cases h4 : j < 2 * n
          · have h5 : j < 2 * (n + 1) := by omega
            simp only [if_pos h4, if_pos h5]
          · rw [if_neg h4, if_neg (by omega), if_neg (by omega), if_neg (by omega)]

theorem sha1_out_digit (hash : Nat → Fin 256) (L : Nat) (buf : Nat → Nat) (j : Nat)
    (hj : j < 2 * L) :
    poke (hexLoop hash L buf) (L * 2) 0 j =
      if j % 2 = 0 then hexDigit ((hash (j / 2)).val / 16)
      else hexDigit ((hash (j / 2)).val % 16) := by
  have hne : j ≠ L * 2 := by omega
  simp only [poke, if_neg hne, hexLoop_spec, if_pos hj]

theorem sha1_out_nul (hash : Nat → Fin 256) (L : Nat) (buf : Nat → Nat) :
    poke (hexLoop hash L buf) (L * 2) 0 (2 * L) = 0 := by
  have he : 2 * L = L * 2 := by omega
  simp only [poke, if_pos he]

theorem hexDigit_upper (n : Nat) (h : n < 16) : isUpperHex (hexDigit n) := by
  unfold isUpperHex hexDigit
  split <;> omega

theorem hexDigit_ne_zero (n : Nat) : hexDigit n ≠ 0 := by
  unfold hexDigit
  split <;> omega

theorem hexVal_hexDigit (n : Nat) (h : n < 16) : hexVal (hexDigit n) = n := by
  unfold hexVal hexDigit
  split <;> split <;> omega

theorem sha1_out_upper (hash : Nat → Fin 256) (L : Nat) (buf : Nat → Nat) (j : Nat)
    (hj : j < 2 * L) : isUpperHex (poke (hexLoop hash L buf) (L * 2) 0 j) := by
  rw [sha1_out_digit hash L buf j hj]
  have hb := (hash (j / 2)).isLt
  split
  · exact hexDigit_upper _ (by omega)
  · exact hexDigit_upper _ (by omega)

theorem bufferOf_length (m : Nat → Nat) (n : Nat) : (bufferOf m n).length = n := by
  simp [bufferOf]

theorem bufferOf_getD (m : Nat → Nat) (n j : Nat) :
    (bufferOf m n).getD j 0 = if j < n then m j else 0 := by
  by_cases h : j < n
  · simp [bufferOf, List.getD_eq_getElem?_getD, List.getElem?_eq_getElem, h]
  · rw [List.getD_eq_default _ _ (by rw [bufferOf_length]; omega), if_neg h]

theorem sha1_out_cstr (hash : Nat → Fin 256) (L : Nat) (buf : Nat → Nat) (buflen : Nat)
    (h : 2 * L + 1 ≤ buflen) :
    cstrAt (poke (hexLoop hash L buf) (L * 2) 0) 0 buflen =
      some (bufferOf (poke (hexLoop hash L buf) (L * 2) 0) (2 * L)) := by
  apply cstrAt_stored
  · intro c hc
    simp only [bufferOf, List.mem_map, List.mem_range] at hc
    obtain ⟨j, hj, rfl⟩ := hc
    rw [sha1_out_digit hash L buf j hj]
    split <;> exact hexDigit_ne_zero _
  · intro j hj
    rw [bufferOf_length] at hj
    rw [bufferOf_getD, Nat.zero_add]
    by_cases hlt : j < 2 * L
    · rw [if_pos hlt]
    · have he : j = 2 * L := by omega
      rw [if_neg hlt, he]
      exact sha1_out_nul hash L buf
  · rw [bufferOf_length]; omega

theorem hexChars_length (d : List (Fin 256)) : (hexChars d).length = 2 * d.length := by
  induction d with
  | nil => rfl
  | cons b d ih => simp only [hexChars, hexByte, List.length_append, List.length_cons,
      List.length_nil, ih]; omega

theorem hexChars_getD (d : List (Fin 256)) :
    ∀ j, j < 2 * d.length → (hexChars d).getD j 0 =
      if j % 2 = 0 then hexDigit ((bytePtr d (j / 2)).val / 16)
      else hexDigit ((bytePtr d (j / 2)).val % 16) := by
  induction d with
  | nil => intro j hj; simp at hj
  | cons b d ih =>
    intro j hj
    match j with
    | 0 => simp [hexChars, hexByte, bytePtr]
    | 1 => simp [hexChars, hexByte, bytePtr]
    | k + 2 =>
      have hk : k < 2 * d.length := by simp at hj; omega
      have e1 : (k + 2) % 2 = k % 2 := by omega
      have e2 : (k + 2) / 2 = k / 2 + 1 := by omega
      have e3 : bytePtr (b :: d) (k / 2 + 1) = bytePtr d (k / 2) := by simp [bytePtr]
      have e4 : (hexChars (b :: d)).getD (k + 2) 0 = (hexChars d).getD k 0 := by
        simp [hexChars, hexByte]
      rw [e4, e1, e2, e3]
      exact ih k hk

theorem sha1_out_eq_hexChars (d : List (Fin 256)) (buf : Nat → Nat) :
    bufferOf (poke (hexLoop (bytePtr d) d.length buf) (d.length * 2) 0) (2 * d.length) =
      hexChars d := by
  apply List.ext_getElem
  · rw [bufferOf_length, hexChars_length]
  · intro j h1 h2
    rw [bufferOf_length] at h1
    have a1 := bufferOf_getD (poke (hexLoop (bytePtr d) d.length buf) (d.length * 2) 0)
      (2 * d.length) j
    rw [if_pos h1, List.getD_eq_getElem _ _ (by rw [bufferOf_length]; exact h1)] at a1
    have a2 := hexChars_getD d j h1
    rw [List.getD_eq_getElem _ _ h2] at a2
    rw [a1, a2]
    exact sha1_out_digit (bytePtr d) d.length buf j h1

theorem hex_decode_hexChars (d : List (Fin 256)) : hex_decode (hexChars d) = d := by
  induction d with
  | nil => rfl
  | cons b d ih =>
    have hb := b.isLt
    simp only [hexChars, hexByte, List.cons_append, List.nil_append, hex_decode, ih,
      hexVal_hexDigit (b.val / 16) (by omega), hexVal_hexDigit (b.val % 16) (by omega)]
    congr 1
    apply Fin.ext
    simp only [Fin.ofNat, Fin.val_mk]
    omega

theorem hexChars_ne_zero (d : List (Fin 256)) : ∀ c ∈ hexChars d, c ≠ 0 := by
  induction d with
  | nil => intro c hc; simp [hexChars] at hc
  | cons b d ih =>
    intro c hc
    simp only [hexChars, hexByte, List.cons_append, List.nil_append, List.mem_cons] at hc
    rcases hc with rfl | rfl | hc
    · exact hexDigit_ne_zero _
    · exact hexDigit_ne_zero _
    · exact ih c hc

theorem hexChars_upper (d : List (Fin 256)) : ∀ c ∈ hexChars d, isUpperHex c := by
  induction d with
  | nil => intro c hc; simp [hexChars] at hc
  | cons b d ih =>
    intro c hc
    have hb := b.isLt
    simp only [hexChars, hexByte, List.cons_append, List.nil_append, List.mem_cons] at hc
    rcases hc with rfl | rfl | hc
    · exact hexDigit_upper _ (by omega)
    · exact hexDigit_upper _ (by omega)
    · exact ih c hc

theorem cstr_append_zero (s t : List Nat) (hs : ∀ c ∈ s, c ≠ 0) : cstr (s ++ 0 :: t) = s := by
  unfold cstr
  rw [List.takeWhile_append_of_pos]
  · simp
  · intro c hc
    simpa using hs c hc

theorem bufferOf_succ (m : Nat → Nat) (n : Nat) : bufferOf m (n + 1) = bufferOf m n ++ [m n] := by
  simp [bufferOf, List.range_succ]

theorem sha1_out_view (mem : Nat → Nat) (hash L buf : Nat) (hap : Apart hash L buf) :
    bufView (poke (sha1_writes hash buf L mem) (buf + L * 2) 0) buf =
      poke (hexLoop (digestView mem hash) L (bufView mem buf)) (L * 2) 0 := by
  funext j
  simp only [bufView, poke, sha1_writes_agree mem hash buf L hap L (Nat.le_refl _) j]
  split_ifs <;> first | rfl | omega

theorem sha1_out_frame (mem : Nat → Nat) (hash L buf a : Nat)
    (ha : a < buf ∨ buf + 2 * L < a) :
    poke (sha1_writes hash buf L mem) (buf + L * 2) 0 a = mem a := by
  have hne : a ≠ buf + L * 2 := by omega
  simp only [poke, if_neg hne]
  exact sha1_writes_frame mem hash buf L a ha

theorem sha1_out_string (mem : Nat → Nat) (hash L buf buflen : Nat)
    (h : 2 * L + 1 ≤ buflen) :
    cstrAt (bufView (poke (sha1_writes hash buf L mem) (buf + L * 2) 0) buf) 0 buflen =
      some (bufferOf (bufView (poke (sha1_writes hash buf L mem) (buf + L * 2) 0) buf)
        (2 * L)) := by
  apply cstrAt_stored
  · intro c hc
    simp only [bufferOf, List.mem_map, List.mem_range] at hc
    obtain ⟨j, hj, rfl⟩ := hc
    have hne : buf + j ≠ buf + L * 2 := by omega
    obtain ⟨v, _, hv⟩ := sha1_writes_hex mem hash buf L j hj
    simp only [bufView, poke, if_neg hne, hv]
    exact hexDigit_ne_zero v
  · intro j hj
    rw [bufferOf_length] at hj
    rw [bufferOf_getD, Nat.zero_add]
    by_cases hlt : j < 2 * L
    · rw [if_pos hlt]
    · have he : j = 2 * L := by omega
      have hq : buf + 2 * L = buf + L * 2 := by omega
      rw [if_neg hlt, he]
      simp only [bufView, poke, if_pos hq]
  · rw [bufferOf_length]; omega

theorem ofNat_val (b : Fin 256) : (Fin.ofNat b.val : Fin 256) = b := by
  apply Fin.ext
  simp only [Fin.ofNat, Fin.val_mk]
  exact Nat.mod_eq_of_lt b.isLt

theorem hexLoop_held (mem : Nat → Nat) (hash : Nat) (d : List (Fin 256))
    (hd : HoldsDigest mem hash d) (buf : Nat → Nat) :
    hexLoop (digestView mem hash) d.length buf = hexLoop (bytePtr d) d.length buf := by
  apply hexLoop_congr
  intro i hi
  simp only [digestView, hd i hi, ofNat_val]

theorem hexString_eq (d : List (Fin 256)) (mem : Nat → Nat) (hash buf buflen : Nat)
    (hL : d.length < 2 ^ 30) (h : 2 * d.length + 1 ≤ buflen)
    (hd : HoldsDigest mem hash d) (hap : Apart hash d.length buf) :
    hexString mem hash d.length buf buflen = some (hexChars d) := by
  simp only [hexString, sha1_to_str_defined mem hash d.length buf buflen hL (by omega), if_true]
  rw [sha1_out_string mem hash d.length buf buflen h, sha1_out_view mem hash d.length buf hap,
    hexLoop_held mem hash d hd, sha1_out_eq_hexChars]

theorem digestMem_holds (d : List (Fin 256)) : HoldsDigest (digestMem d) 1 d := by
  intro i _
  have h1 : 1 + i ≠ 0 := by omega
  have h2 : 1 + i - 1 = i := by omega
  simp only [digestMem, if_neg h1, h2, bytePtr]

theorem digestMem_apart (d : List (Fin 256)) : Apart 1 d.length (1 + d.length) := by
  intro i hi
  exact Or.inl (by omega)

theorem bufferOf_congr (m1 m2 : Nat → Nat) (n : Nat) (h : ∀ j, j < n → m1 j = m2 j) :
    bufferOf m1 n = bufferOf m2 n := by
  simp only [bufferOf]
  apply List.map_congr_left
  intro j hj
  exact h j (List.mem_range.mp hj)

theorem copyBootHash_legacy (reg : Registry) (flag : Bool) (d : List (Fin 256))
    (hv : reg.chosen_valid = true) (hroot : reg.root_snapshot_name = none)
    (hboot : reg.boot_manifest_hash = some (CFValue.data d))
    (hL : d.length < 2 ^ 30) (hc : reg.calloc_ok = true) :
    copyBootHash reg flag = ⟨some (hexChars d ++ [0]), false, false⟩ := by
  have hok := sha1_to_str_defined (digestMem d) 1 d.length (1 + d.length) (d.length * 2 + 1)
    hL (by omega)
  have hview := sha1_out_view (digestMem d) 1 d.length (1 + d.length) (digestMem_apart d)
  rw [hexLoop_held (digestMem d) 1 d (digestMem_holds d)] at hview
  have hbuf : bufferOf (bufView (poke (sha1_writes 1 (1 + d.length) d.length (digestMem d))
      (1 + d.length + d.length * 2) 0) (1 + d.length)) (d.length * 2 + 1) =
      hexChars d ++ [0] := by
    have e : d.length * 2 = 2 * d.length := by omega
    rw [hview, bufferOf_succ]
    nth_rewrite 2 [e]
    nth_rewrite 3 [e]
    rw [sha1_out_eq_hexChars, sha1_out_nul]
  have hidx : ¬ (d.length * 2 + 1 > CFINDEX_MAX ∨ reg.calloc_ok = false) := by
    have : CFINDEX_MAX = 9223372036854775807 := by decide
    rw [this, hc]
    intro h
    rcases h with h | h
    · omega
    · exact Bool.noConfusion h
  simp only [copyBootHash, hv, hroot, hboot, hok, hbuf, ERR_SUCCESS, if_neg hidx]
  simp

theorem APPLESNAP_ne_zero : ∀ c ∈ APPLESNAP, c ≠ 0 := by decide

theorem copyBootHash_flag_data (reg : Registry) (d : List (Fin 256)) (f : Bool) :
    (if d.length * 2 + 1 > CFINDEX_MAX ∨ reg.calloc_ok = false then
        (⟨none, f, true⟩ : Returned)
      else
        match sha1_to_str (digestMem d) 1 d.length (1 + d.length) (d.length * 2 + 1) with
        | none => ⟨none, f, true⟩
        | some r =>
          if r.1 ≠ ERR_SUCCESS then ⟨none, f, false⟩
          else ⟨some (bufferOf (bufView r.2 (1 + d.length)) (d.length * 2 + 1)), f,
            false⟩).2 = f := by
  repeat' (first | rfl | split)

theorem copyBootHash_flag (reg : Registry) (flag : Bool) :
    (copyBootHash reg flag).2 =
      if (reg.chosen_valid && reg.root_snapshot_name.isNone) = true then false else flag := by
  cases hv : reg.chosen_valid
  · simp [copyBootHash, hv]
  · cases hroot : reg.root_snapshot_name with
    | none =>
      have hr : (if (true && (none : Option CFValue).isNone) = true then false else flag) =
          false := by simp
      rw [hr]
      cases hboot : reg.boot_manifest_hash with
      | none => simp [copyBootHash, hv, hroot, hboot]
      | some v =>
        cases v with
        | other => simp [copyBootHash, hv, hroot, hboot]
        | data d =>
          simp only [copyBootHash, hv, hroot, hboot, Bool.not_true, Bool.false_eq_true,
            if_false]
          exact copyBootHash_flag_data reg d false
    | some v =>
      have hr : (if (true && (some v : Option CFValue).isNone) = true then false else flag) =
          flag := by simp
      rw [hr]
      cases v with
      | other => simp [copyBootHash, hv, hroot]
      | data d =>
        cases flag
        · simp only [copyBootHash, hv, hroot, Bool.not_true, Bool.false_eq_true, if_false]
          exact copyBootHash_flag_data reg d false
        · simp [copyBootHash, hv, hroot]

theorem hugeDigest_length : hugeDigest.length = 2 ^ 30 + 1 := List.length_replicate _ _

theorem hexString_undefined (mem : Nat → Nat) (hash hashlen buf buflen : Nat)
    (h : sha1_to_str mem hash hashlen buf buflen = none) :
    hexString mem hash hashlen buf buflen = none := by
  simp only [hexString, h]

theorem sha1_to_str_exact (mem : Nat → Nat) (hash hashlen buf : Nat) (r : Int × (Nat → Nat))
    (h : sha1_to_str mem hash hashlen buf (hashlen * 2 + 1) = some r) : r.1 = ERR_SUCCESS := by
  have hg : ¬ hashlen * 2 + 1 < (hashlen * 2 + 1) % SIZE_MODULUS :=
    Nat.not_lt.mpr (Nat.mod_le _ _)
  simp only [sha1_to_str, if_neg hg] at h
  cases hl : sha1_loop hash buf hashlen mem with
  | none => rw [hl] at h; cases h
  | some m =>
    rw [hl] at h
    simp only at h
    split at h
    · cases h
    · cases h
      rfl

theorem sha1_to_str_returns_frame (mem : Nat → Nat) (hash hashlen buf buflen : Nat)
    (r : Int × (Nat → Nat)) (h : sha1_to_str mem hash hashlen buf buflen = some r)
    (a : Nat) (ha : a < buf ∨ buf + 2 * hashlen < a) : r.2 a = mem a := by
  simp only [sha1_to_str] at h
  split at h
  · cases h
    rfl
  · cases hl : sha1_loop hash buf hashlen mem with
    | none => rw [hl] at h; cases h
    | some m =>
      rw [hl] at h
      simp only at h
      split at h
      · cases h
      · rename_i hI
        have hI2 : hashlen * 2 ≤ INT_MAX := Nat.not_lt.mp hI
        rw [sha1_loop_some mem hash buf hashlen hI2] at hl
        cases hl
        cases h
        exact sha1_out_frame mem hash hashlen buf a ha

theorem copyBootHash_overflow (reg : Registry) (flag : Bool) (d : List (Fin 256))
    (hv : reg.chosen_valid = true) (hroot : reg.root_snapshot_name = none)
    (hboot : reg.boot_manifest_hash = some (CFValue.data d))
    (hL : d.length * 2 > INT_MAX) (hidx : ¬ d.length * 2 + 1 > CFINDEX_MAX)
    (hc : reg.calloc_ok = true) :
    copyBootHash reg flag = ⟨none, false, true⟩ := by
  have hg : ¬ d.length * 2 + 1 < (d.length * 2 + 1) % SIZE_MODULUS :=
    Nat.not_lt.mpr (Nat.mod_le _ _)
  have hs := sha1_to_str_overflow (digestMem d) 1 d.length (1 + d.length) (d.length * 2 + 1)
    hg hL
  have hcond : ¬ (d.length * 2 + 1 > CFINDEX_MAX ∨ reg.calloc_ok = false) := by
    rw [hc]
    intro h
    rcases h with h | h
    · exact hidx h
    · exact Bool.noConfusion h
  simp only [copyBootHash, hv, hroot, hboot, Bool.not_true, Bool.false_eq_true, if_false,
    if_neg hcond, hs]

theorem copyBootHash_data_defined (reg : Registry) (d : List (Fin 256)) (f : Bool)
    (hnone : (if d.length * 2 + 1 > CFINDEX_MAX ∨ reg.calloc_ok = false then
        (⟨none, f, true⟩ : Returned)
      else
        match sha1_to_str (digestMem d) 1 d.length (1 + d.length) (d.length * 2 + 1) with
        | none => ⟨none, f, true⟩
        | some r =>
          if r.1 ≠ ERR_SUCCESS then ⟨none, f, false⟩
          else ⟨some (bufferOf (bufView r.2 (1 + d.length)) (d.length * 2 + 1)), f,
            false⟩).1 = none)
    (hdef : (if d.length * 2 + 1 > CFINDEX_MAX ∨ reg.calloc_ok = false then
        (⟨none, f, true⟩ : Returned)
      else
        match sha1_to_str (digestMem d) 1 d.length (1 + d.length) (d.length * 2 + 1) with
        | none => ⟨none, f, true⟩
        | some r =>
          if r.1 ≠ ERR_SUCCESS then ⟨none, f, false⟩
          else ⟨some (bufferOf (bufView r.2 (1 + d.length)) (d.length * 2 + 1)), f,
            false⟩).undefined = false) : False := by
  split at hnone
  · rename_i hcnd
    rw [if_pos hcnd] at hdef
    exact Bool.noConfusion hdef
  · rename_i hcnd
    rw [if_neg hcnd] at hdef
    cases hs : sha1_to_str (digestMem d) 1 d.length (1 + d.length) (d.length * 2 + 1) with
    | none =>
      rw [hs] at hdef
      exact Bool.noConfusion hdef
    | some r =>
      rw [hs] at hnone
      have hr := sha1_to_str_exact _ _ _ _ r hs
      simp only [hr, ne_eq, not_true_eq_false, if_false] at hnone
      cases hnone

/-! ## Lemmas for the flag, the failure paths and the frame -/

theorem copy_snapshot_list_run (env : Env)
    (hc : env.calloc (257 * sizeof_ptr + MAXPATHLEN) 1 ≠ 0) :
    copy_snapshot_list env =
      match visitAll env (delivered env.pages) (initState env) with
      | .error o => o
      | .ok st1 => finish env.pages st1 :=
  copy_snapshot_list_unfold env hc

theorem initState_shape (env : Env) : Shape (initState env) :=
  ⟨⟨fun i hi => absurd hi (Nat.not_lt_zero _), fun _ _ => rfl⟩, Nat.zero_le _,
    by simp [initState, sizeof_ptr]⟩

theorem visit_room (env : Env) (e : val_attrs) (st st1 : LoopState) (hr : Room st)
    (hfit : e.returned_commonattr &&& ATTR_CMN_NAME ≠ 0 → strlen e.name + 1 ≤ MAXPATHLEN)
    (hv : visit env e st = .ok st1) :
    Room st1 ∧
    (e.returned_commonattr &&& ATTR_CMN_NAME ≠ 0 →
      st1.nameOffset = st.nameOffset + (strlen e.name + 1) ∧
      st.nameOffset + (strlen e.name + 1) ≤ st1.list.snapshots_size ∧
      (st1.list.snapshots_size = st.list.snapshots_size ∨
        st1.list.snapshots_size = st.list.snapshots_size + MAXPATHLEN)) ∧
    (¬ e.returned_commonattr &&& ATTR_CMN_NAME ≠ 0 → st1 = st) := by
  have hlo := hr.lo
  have hhi := hr.hi
  by_cases hn : e.returned_commonattr &&& ATTR_CMN_NAME ≠ 0
  · have hf := hfit hn
    by_cases hfull : 255 < st.snapidx
    · rw [visit_full env e st hn hfull] at hv
      cases hv
    · by_cases hgrow : st.nameOffset + (strlen e.name + 1) > st.list.snapshots_size
      · by_cases hp : env.reallocf st.list.snapshots (st.list.snapshots_size + MAXPATHLEN) = 0
        · simp only [visit, if_pos hn, if_neg hfull, if_pos hgrow, if_pos hp] at hv
          cases hv
        · simp only [visit, if_pos hn, if_neg hfull, if_pos hgrow, if_neg hp] at hv
          cases hv
          refine ⟨⟨?_, ?_⟩, fun _ => ⟨rfl, ?_, Or.inr rfl⟩, fun h => absurd hn h⟩
          · simp only [store]; omega
          · simp only [store]; omega
          · simp only [store]; omega
      · simp only [visit, if_pos hn, if_neg hfull, if_neg hgrow] at hv
        cases hv
        refine ⟨⟨?_, ?_⟩, fun _ => ⟨rfl, ?_, Or.inl rfl⟩, fun h => absurd hn h⟩
        · simp only [store]; omega
        · simp only [store]; omega
        · simp only [store]; omega
  · rw [visit_unnamed env e st hn] at hv
    cases hv
    exact ⟨hr, fun h => absurd h hn, fun _ => rfl⟩

theorem copies_packed (env : Env) :
    ∀ (rs : List val_attrs) (st : LoopState), Room st →
      (∀ e ∈ named rs, strlen e.name + 1 ≤ MAXPATHLEN) →
      (∀ c ∈ copies env rs st, st.nameOffset ≤ c.dst ∧ c.dst + c.size ≤ c.snapshots_size ∧
        (c.snapshots_size = c.size_before ∨ c.snapshots_size = c.size_before + MAXPATHLEN)) ∧
      (∀ c, (copies env rs st).head? = some c → c.dst = st.nameOffset) ∧
      List.Chain' (fun a b => b.dst = a.dst + a.size) (copies env rs st) ∧
      List.Pairwise (fun a b => a.dst + a.size ≤ b.dst) (copies env rs st) := by
  intro rs
  induction rs with
  | nil =>
    intro st _ _
    simp [copies]
  | cons e rs ih =>
    intro st hr hfit
    cases hv : visit env e st with
    | error o => simp [copies, hv]
    | ok st1 =>
      by_cases hn : e.returned_commonattr &&& ATTR_CMN_NAME ≠ 0
      · have hcons : named (e :: rs) = e :: named rs := by rw [named_cons, if_pos hn]
        rw [hcons] at hfit
        obtain ⟨hr1, hstep, _⟩ :=
          visit_room env e st st1 hr (fun _ => hfit e (List.mem_cons_self _ _)) hv
        obtain ⟨hoff, hroom, hsize⟩ := hstep hn
        obtain ⟨h1, h2, h3, h4⟩ := ih st1 hr1 (fun x hx => hfit x (List.mem_cons_of_mem _ hx))
        simp only [copies, hv, if_pos hn]
        refine ⟨?_, ?_, ?_, ?_⟩
        · intro c hc
          rcases List.mem_cons.mp hc with rfl | hc
          · exact ⟨Nat.le_refl _, hroom, hsize⟩
          · obtain ⟨a, b, d⟩ := h1 c hc
            exact ⟨by omega, b, d⟩
        · intro c hc
          simp only [List.head?_cons, Option.some.injEq] at hc
          rw [← hc]
        · rw [List.chain'_cons']
          refine ⟨?_, h3⟩
          intro c hc
          rw [h2 c hc, hoff]
        · rw [List.pairwise_cons]
          refine ⟨?_, h4⟩
          intro c hc
          have := (h1 c hc).1
          show st.nameOffset + (strlen e.name + 1) ≤ c.dst
          omega
      · have hcons : named (e :: rs) = named rs := by rw [named_cons, if_neg hn]
        rw [hcons] at hfit
        obtain ⟨_, _, hsame⟩ := visit_room env e st st1 hr (fun h => absurd h hn) hv
        have hst : st1 = st := hsame hn
        subst hst
        simp only [copies, hv, if_neg hn]
        exact ih st1 hr hfit

theorem initState_room (env : Env) : Room (initState env) :=
  ⟨Nat.le_refl _, by simp [initState]⟩

theorem visit_error_inside (env : Env) (e : val_attrs) (st : LoopState) (o : Outcome)
    (h : visit env e st = .error o) : returnedInside o = true := by
  by_cases hn : e.returned_commonattr &&& ATTR_CMN_NAME ≠ 0
  · by_cases hfull : 255 < st.snapidx
    · rw [visit_full env e st hn hfull] at h
      cases h
      rfl
    · by_cases hgrow : st.nameOffset + (strlen e.name + 1) > st.list.snapshots_size
      · by_cases hp : env.reallocf st.list.snapshots (st.list.snapshots_size + MAXPATHLEN) = 0
        · simp only [visit, if_pos hn, if_neg hfull, if_pos hgrow, if_pos hp] at h
          cases h
          rfl
        · simp only [visit, if_pos hn, if_neg hfull, if_pos hgrow, if_neg hp] at h
          cases h
      · simp only [visit, if_pos hn, if_neg hfull, if_neg hgrow] at h
        cases h
  · rw [visit_unnamed env e st hn] at h
    cases h

theorem scan_page_error_inside (env : Env) (buf : Nat → val_attrs) :
    ∀ n entry st o, scan_page env buf n entry st = .error o → returnedInside o = true := by
  intro n
  induction n with
  | zero => intro entry st o h; cases h
  | succ n ih =>
    intro entry st o h
    simp only [scan_page] at h
    cases hv : visit env (buf entry) st with
    | error o1 =>
      rw [hv] at h
      cases h
      exact visit_error_inside env _ st o hv
    | ok st1 =>
      rw [hv] at h
      exact ih _ st1 o h

theorem scan_trace_spec (env : Env) (buf : Nat → val_attrs) :
    ∀ n k st, ∃ m, m ≤ n ∧ (0 < n → 0 < m) ∧
      scan_trace env buf n (recOffset buf k) st = (List.range' k m).map (recOffset buf) ∧
      (∀ st1, scan_page env buf n (recOffset buf k) st = .ok st1 → m = n) := by
  intro n
  induction n with
  | zero =>
    intro k st
    exact ⟨0, Nat.le_refl _, fun h => h, rfl, fun _ _ => rfl⟩
  | succ n ih =>
    intro k st
    cases hv : visit env (buf (recOffset buf k)) st with
    | error o =>
      refine ⟨1, by omega, fun _ => Nat.one_pos, ?_, ?_⟩
      · simp [scan_trace, hv]
      · intro st1 h
        simp [scan_page, hv] at h
    | ok st1 =>
      obtain ⟨m, h1, _, h3, h4⟩ := ih (k + 1) st1
      refine ⟨m + 1, by omega, fun _ => Nat.succ_pos _, ?_, ?_⟩
      · simp only [scan_trace, hv]
        have hk : recOffset buf k + (buf (recOffset buf k)).length = recOffset buf (k + 1) := rfl
        rw [hk, h3]
        rfl
      · intro st2 h
        simp only [scan_page, hv] at h
        have hk : recOffset buf k + (buf (recOffset buf k)).length = recOffset buf (k + 1) := rfl
        rw [hk] at h
        rw [h4 st2 h]

theorem range_initial (m n : Nat) (h : m ≤ n) : List.range m <+: List.range n := by
  have : List.take m (List.range n) = List.range m := by
    rw [List.take_range, Nat.min_eq_left h]
  rw [← this]
  exact List.take_prefix _ _

theorem list_trace_ok (env : Env) :
    ∀ ps st, TraceOK (!returnedInside (list_loop env ps st)) ps (list_trace env ps st) := by
  intro ps
  induction ps with
  | nil => intro st; simp [list_trace, TraceOK]
  | cons p ps ih =>
    intro st
    by_cases hp : p.retcount > 0
    · obtain ⟨m, h1, h2, h3, h4⟩ := scan_trace_spec env p.buf p.retcount.toNat 0 st
      have h0 : recOffset p.buf 0 = 0 := rfl
      rw [h0] at h3 h4
      have hn : 0 < p.retcount.toNat := by omega
      have hm := h2 hn
      have hpre : scan_trace env p.buf p.retcount.toNat 0 st <+: pageOffsets p := by
        rw [h3, ← List.range_eq_range']
        exact (range_initial m _ h1).map _
      have hne : scan_trace env p.buf p.retcount.toNat 0 st ≠ [] := by
        rw [h3]
        intro hnil
        have := congrArg List.length hnil
        simp at this
        omega
      cases hs : scan_page env p.buf p.retcount.toNat 0 st with
      | error o =>
        have hin := scan_page_error_inside env p.buf _ _ _ o hs
        simp only [list_trace, list_loop, if_pos hp, hs, TraceOK]
        refine ⟨hp, hne, hpre, ?_, trivial⟩
        intro h
        rcases h with h | h
        · exact absurd rfl h
        · rw [hin] at h
          exact Bool.noConfusion h
      | ok st1 =>
        have hfull : scan_trace env p.buf p.retcount.toNat 0 st = pageOffsets p := by
          rw [h3, h4 st1 hs, ← List.range_eq_range']
          rfl
        simp only [list_trace, list_loop, if_pos hp, hs, TraceOK]
        exact ⟨hp, hne, hpre, fun _ => hfull, ih st1⟩
    · simp [list_trace, if_neg hp, TraceOK]

theorem records_eq_map (buf : Nat → val_attrs) :
    ∀ k j, records buf k (recOffset buf j) =
      (List.range' j k).map (fun i => buf (recOffset buf i)) := by
  intro k
  induction k with
  | zero => intro j; rfl
  | succ k ih =>
    intro j
    have hk : recOffset buf j + (buf (recOffset buf j)).length = recOffset buf (j + 1) := rfl
    simp only [records, hk, ih (j + 1)]
    rfl

theorem recOffset_eq_sum (buf : Nat → val_attrs) :
    ∀ k, recOffset buf k = ((records buf k 0).map (fun e => e.length)).sum := by
  intro k
  have h0 : records buf k 0 = (List.range' 0 k).map (fun i => buf (recOffset buf i)) :=
    records_eq_map buf k 0
  rw [h0, ← List.range_eq_range']
  induction k with
  | zero => rfl
  | succ k ih =>
    have := ih (records_eq_map buf k 0)
    rw [List.range_succ, List.map_append, List.map_append, List.sum_append, ← this]
    simp [recOffset]

theorem copies_length (env : Env) :
    ∀ (rs : List val_attrs) (st : LoopState), Shape st →
      (∀ st1, visitAll env rs st = .ok st1 →
        (copies env rs st).length + st.snapidx = st1.snapidx) ∧
      (∀ o l, visitAll env rs st = .error o → o.ret = some l →
        (copies env rs st).length + st.snapidx = 256) := by
  intro rs
  induction rs with
  | nil =>
    intro st _
    constructor
    · intro st1 h
      cases h
      simp [copies]
    · intro o l h
      cases h
  | cons e rs ih =>
    intro st hs
    have hv := visit_shape env e st hs
    cases hvis : visit env e st with
    | error o1 =>
      simp only [visitAll, copies, hvis]
      constructor
      · intro st1 h
        cases h
      · intro o l h hl
        cases h
        rcases hv.2 o1 hvis with h0 | ⟨_, h2, _⟩
        · rw [h0] at hl
          cases hl
        · simp only [List.length_nil, Nat.zero_add]
          exact h2
    | ok st1 =>
      obtain ⟨hs1, hidx⟩ := hv.1 st1 hvis
      have hrec := ih st1 hs1
      have hlen : (copies env (e :: rs) st).length =
          (named [e]).length + (copies env rs st1).length := by
        simp only [copies, hvis]
        by_cases hn : e.returned_commonattr &&& ATTR_CMN_NAME ≠ 0
        · rw [if_pos hn, named_cons, if_pos hn]
          simp [named]
          omega
        · rw [if_neg hn, named_cons, if_neg hn]
          simp [named]
      simp only [visitAll, hvis]
      constructor
      · intro st2 h
        have := hrec.1 st2 h
        omega
      · intro o l h hl
        have := hrec.2 o l h hl
        omega

theorem copies_count (env : Env) (l : SnapshotList)
    (h : (copy_snapshot_list env).ret = some l) :
    (copy_snapshot_list_copies env).length = l.entries.length := by
  by_cases hc : env.calloc (257 * sizeof_ptr + MAXPATHLEN) 1 = 0
  · simp [copy_snapshot_list, hc] at h
  · rw [copy_snapshot_list_run env hc] at h
    simp only [copy_snapshot_list_copies, if_neg hc]
    have hsh := visitAll_shape env (delivered env.pages) _ (initState_shape env)
    have hcl := copies_length env (delivered env.pages) _ (initState_shape env)
    have h0 : (initState env).snapidx = 0 := rfl
    cases hvis : visitAll env (delivered env.pages) (initState env) with
    | error o =>
      rw [hvis] at h
      simp only at h
      have h1 := hcl.2 o l hvis h
      rcases hsh.2 o hvis with hn | ⟨l1, hl1, hf, _⟩
      · rw [hn] at h
        cases h
      · rw [hl1] at h
        have hl : l1 = l := Option.some.inj h
        rw [← hl, entries_length l1 256 (Nat.le_refl _) hf]
        omega
    | ok st1 =>
      rw [hvis] at h
      obtain ⟨hs1, _⟩ := hsh.1 st1 hvis
      have h1 := hcl.1 st1 hvis
      simp only [finish] at h
      split at h
      · cases h
      · cases h
        rw [entries_length st1.list st1.snapidx hs1.cap hs1.filled]
        omega

/-! ## Claims -/

/-- C1 (the code departs from the claim): seventeen snapshots with names of 60 characters
are delivered, the stream ends in exhaustion and every allocation succeeds, but `reallocf`
moves the block when the seventeenth name needs room.  The list returned lives at the new
address while its first sixteen slots still hold addresses inside the old block, so those
entries are not the delivered names: only the last entry can be read. -/
theorem copy_snapshot_list_stale_after_move :
    envMoved.calloc (257 * sizeof_ptr + MAXPATHLEN) 1 ≠ 0 ∧
    (∀ p sz, p ≠ 0 → envMoved.reallocf p sz ≠ 0) ∧
    streamEnd envMoved.pages = 0 ∧
    (deliveredNames envMoved.pages).length = 17 ∧
    (copy_snapshot_list envMoved).ret.map
        (fun l => (l.snapshots, l.snapshots_size, l.slots 0, l.entries)) =
      some (0x110000, 4104, 0x100000 + 2056, List.replicate 16 none ++ [some (snapName 16)]) ∧
    ¬ ∃ l, (copy_snapshot_list envMoved).ret = some l ∧
        l.entries = (deliveredNames envMoved.pages).map some := by
  have heval : (copy_snapshot_list envMoved).ret.map
        (fun l => (l.snapshots, l.snapshots_size, l.slots 0, l.entries)) =
      some (0x110000, 4104, 0x100000 + 2056, List.replicate 16 none ++ [some (snapName 16)]) := by
    decide
  refine ⟨by decide, ?_, by decide, by decide, heval, ?_⟩
  · intro p sz hp
    simp [envMoved]
  · rintro ⟨l, hl, he⟩
    rw [hl] at heval
    simp only [Option.map_some', Option.some.injEq, Prod.mk.injEq] at heval
    rw [he] at heval
    exact absurd heval.2.2.2 (by decide)

/-- C2 (amended): when the initial allocation succeeds, every reallocation succeeds in place
and every name fits in `MAXPATHLEN` bytes, a stream that delivers more than 256 named records
yields a non-null list of exactly 256 entries, the first 256 delivered names in order,
followed by the `NULL` terminator, and the capacity diagnostic is printed; and for no input
at all does a returned list hold more than 256 entries. -/
theorem copy_snapshot_list_cap (env : Env)
    (hc : env.calloc (257 * sizeof_ptr + MAXPATHLEN) 1 ≠ 0) (hin : InPlace env)
    (hfit : NamesFit env.pages) (hN : 256 < (deliveredNames env.pages).length) :
    (∃ l, (copy_snapshot_list env).ret = some l ∧
      l.entries = ((deliveredNames env.pages).take 256).map some ∧
      l.entries.length = 256 ∧ l.slots 256 = 0 ∧
      (copy_snapshot_list env).diag = some Diag.too_many) ∧
    (∀ (env2 : Env) (l2 : SnapshotList),
      (copy_snapshot_list env2).ret = some l2 → l2.entries.length ≤ 256) := by
  constructor
  · obtain ⟨l, h1, h2, h3⟩ := (copy_snapshot_list_in_place env hc hin hfit).2 hN
    have hf := copy_snapshot_list_filled env l h1
    rw [Nat.min_eq_right (by omega)] at hf
    exact ⟨l, h1, h3, entries_length l 256 (Nat.le_refl _) hf, hf.2 256 (Nat.le_refl _), h2⟩
  · intro env2 l2 h
    have hf := copy_snapshot_list_filled env2 l2 h
    rw [entries_length l2 _ (Nat.min_le_right _ _) hf]
    exact Nat.min_le_right _ _

/-- C2 (counterexample): 257 named records are delivered but the allocator has no memory, and
`copy_snapshot_list` returns `NULL` with the allocation diagnostic instead of a list of 256
names. -/
theorem copy_snapshot_list_cap_no_memory :
    256 < (deliveredNames envNoMem.pages).length ∧
    ¬ ∃ l, (copy_snapshot_list envNoMem).ret = some l ∧
        l.entries = ((deliveredNames envNoMem.pages).take 256).map some := by
  refine ⟨by decide, ?_⟩
  rintro ⟨l, hl, _⟩
  have hnone : (copy_snapshot_list envNoMem).ret = none := rfl
  rw [hnone] at hl
  cases hl

/-- C2 (witness): the amended claim at a stream of 257 snapshots grown in place. -/
theorem copy_snapshot_list_cap_witness :
    (envInPlace 257).calloc (257 * sizeof_ptr + MAXPATHLEN) 1 ≠ 0 ∧
    InPlace (envInPlace 257) ∧ NamesFit (envInPlace 257).pages ∧
    256 < (deliveredNames (envInPlace 257).pages).length ∧
    ((∃ l, (copy_snapshot_list (envInPlace 257)).ret = some l ∧
      l.entries = ((deliveredNames (envInPlace 257).pages).take 256).map some ∧
      l.entries.length = 256 ∧ l.slots 256 = 0 ∧
      (copy_snapshot_list (envInPlace 257)).diag = some Diag.too_many) ∧
    (∀ (env2 : Env) (l2 : SnapshotList),
      (copy_snapshot_list env2).ret = some l2 → l2.entries.length ≤ 256)) :=
  ⟨by decide, fun _ _ => rfl, by unfold NamesFit; decide, by decide,
    copy_snapshot_list_cap (envInPlace 257) (by decide) (fun _ _ => rfl)
      (by unfold NamesFit; decide) (by decide)⟩

/-- C3 (the code departs from the claim): in the stream of seventeen snapshots whose block is
moved by `reallocf`, the seventeenth name is byte-identical to an entry of the returned list,
yet `snapshot_check` does not return true for it: its scan first compares against slot 0,
which points into the old block, a read outside the list. -/
theorem snapshot_check_stale_after_move :
    (∃ l, (copy_snapshot_list envMoved).ret = some l ∧ some (snapName 16) ∈ l.entries) ∧
    snapshot_check envMoved (snapName 16) = none ∧
    snapshot_check envMoved (snapName 16) ≠ some true := by
  have heval : (copy_snapshot_list envMoved).ret.map (fun l => l.entries) =
      some (List.replicate 16 none ++ [some (snapName 16)]) := by
    decide
  refine ⟨?_, by decide, by decide⟩
  cases h : (copy_snapshot_list envMoved).ret with
  | none => rw [h] at heval; cases heval
  | some l =>
    rw [h] at heval
    simp only [Option.map_some', Option.some.injEq] at heval
    exact ⟨l, rfl, by rw [heval]; simp⟩

/-- C4 (counterexample): one snapshot is delivered and then the paging primitive fails, or
257 snapshots are there and the allocator has no memory, or three snapshots are listed and
`strdup` finds no memory for the copy; in each case `copy_first_snapshot` returns none
although the snapshot count is not zero. -/
theorem copy_first_snapshot_none_on_failure :
    ¬ (copy_first_snapshot envPagingError = some none ↔
        deliveredNames envPagingError.pages = []) ∧
    ¬ (copy_first_snapshot envNoMem = some none ↔ deliveredNames envNoMem.pages = []) ∧
    ¬ (copy_first_snapshot envStrdupFails = some none ↔
        deliveredNames envStrdupFails.pages = []) := by
  decide

/-- C4 (amended): `copy_first_snapshot` returns none if and only if `copy_snapshot_list`
fails, or the stream delivers no named record, or the `strdup` of line 63 finds no memory
for a readable first entry; so with `strdup` succeeding it returns none if and only if the
lister fails or no named record is delivered.  Otherwise, whenever the first entry of the
list `copy_snapshot_list` returns is a readable string and `strdup` succeeds, it returns a
copy equal to it, and with the allocation succeeding, the block grown in place, the names
fitting and the lister not failing, that copy is the first delivered name. -/
theorem copy_first_snapshot_spec (env : Env) :
    (copy_first_snapshot env = some none ↔
      ((copy_snapshot_list env).ret = none ∨ deliveredNames env.pages = [] ∨
        (env.strdup_ok = false ∧
          ∃ l s, (copy_snapshot_list env).ret = some l ∧ l.str (l.slots 0) = some s))) ∧
    (env.strdup_ok = true →
      (copy_first_snapshot env = some none ↔
        ((copy_snapshot_list env).ret = none ∨ deliveredNames env.pages = []))) ∧
    (∀ l s, (copy_snapshot_list env).ret = some l → l.entries.head? = some (some s) →
      copy_first_snapshot env = some (if env.strdup_ok then some s else none)) ∧
    (env.calloc (257 * sizeof_ptr + MAXPATHLEN) 1 ≠ 0 → InPlace env → NamesFit env.pages →
      (streamEnd env.pages = 0 ∨ 256 < (deliveredNames env.pages).length) →
      copy_first_snapshot env =
        some (if env.strdup_ok then (deliveredNames env.pages).head? else none)) :=
  ⟨copy_first_snapshot_null_iff env,
    fun hd => copy_first_snapshot_null_iff_ok env hd,
    fun l s h hs => copy_first_snapshot_head env l s h hs,
    fun hc hin hfit hok => copy_first_snapshot_in_place env hc hin hfit hok⟩

/-- C4 (witness): the amended claim at a stream of three snapshots grown in place, where
`strdup` succeeds and the copy returned is the first delivered name; with `strdup` failing
on the same stream the result is none. -/
theorem copy_first_snapshot_spec_witness :
    (envInPlace 3).calloc (257 * sizeof_ptr + MAXPATHLEN) 1 ≠ 0 ∧ InPlace (envInPlace 3) ∧
    NamesFit (envInPlace 3).pages ∧ streamEnd (envInPlace 3).pages = 0 ∧
    (envInPlace 3).strdup_ok = true ∧
    copy_first_snapshot (envInPlace 3) = some (some (snapName 0)) ∧
    InPlace envStrdupFails ∧ envStrdupFails.strdup_ok = false ∧
    copy_first_snapshot envStrdupFails = some none := by
  refine ⟨by decide, fun _ _ => rfl, by unfold NamesFit; decide, by decide, rfl, ?_,
    fun _ _ => rfl, rfl, ?_⟩
  · rw [(copy_first_snapshot_spec (envInPlace 3)).2.2.2 (by decide) (fun _ _ => rfl)
      (by unfold NamesFit; decide) (Or.inl (by decide))]
    decide
  · rw [(copy_first_snapshot_spec envStrdupFails).2.2.2 (by decide) (fun _ _ => rfl)
      (by unfold NamesFit; decide) (Or.inl (by decide))]
    decide

/-- C5 (counterexample): a digest of `2^30 + 1` bytes with a destination of `2^32` bytes that
it does not overlap: the `int` counter overflows and the run is undefined, so nothing is
left for the claim.  And a digest AB CD that is its own destination: the call succeeds and
leaves "AB42", whose third and fourth characters are not the digits of the byte CD. -/
theorem sha1_to_str_hex_fails :
    (2 * (2 ^ 30 + 1) + 1 ≤ 2 ^ 32 ∧ Apart 1 (2 ^ 30 + 1) (2 ^ 31) ∧
      sha1_to_str (fun _ => 0) 1 (2 ^ 30 + 1) (2 ^ 31) (2 ^ 32) = none) ∧
    (2 * 2 + 1 ≤ 5 ∧ (digestView memAB 100 1).val = 0xCD ∧
      (sha1_to_str memAB 100 2 100 5).map
          (fun r => (r.1, (List.range 5).map (bufView r.2 100))) =
        some (ERR_SUCCESS, [65, 66, 52, 50, 0]) ∧
      hexDigit (0xCD / 16) = 67 ∧ hexDigit (0xCD % 16) = 68) := by
  refine ⟨⟨by decide, ?_, ?_⟩, by decide, by decide, by decide, by decide, by decide⟩
  · intro i hi
    exact Or.inl (by omega)
  · exact sha1_to_str_overflow _ _ _ _ _ (by rw [SIZE_MODULUS_eq]; decide)
      (by rw [INT_MAX_eq]; decide)

/-- C5 (amended): for every digest of length `L < 2^30` that does not overlap the addresses
`buf` to `buf + 2L`, and every destination of size at least `2L+1`, `sha1_to_str` succeeds;
the characters at `2i` and `2i+1` are the uppercase hex digits of the high and low nibble of
byte `i`, all `2L` characters are uppercase hex digits, a NUL sits at index `2L`, and the
string left in the buffer is exactly these `2L` characters. -/
theorem sha1_to_str_hex (mem : Nat → Nat) (hash L buf buflen : Nat)
    (hL : L < 2 ^ 30) (h : 2 * L + 1 ≤ buflen) (hap : Apart hash L buf) :
    ∃ out, sha1_to_str mem hash L buf buflen = some (ERR_SUCCESS, out) ∧
      (∀ i, i < L →
        out (buf + 2 * i) = hexDigit ((digestView mem hash i).val / 16) ∧
        out (buf + (2 * i + 1)) = hexDigit ((digestView mem hash i).val % 16)) ∧
      (∀ j, j < 2 * L → isUpperHex (out (buf + j))) ∧
      out (buf + 2 * L) = 0 ∧
      cstrAt (bufView out buf) 0 buflen = some (bufferOf (bufView out buf) (2 * L)) ∧
      (bufferOf (bufView out buf) (2 * L)).length = 2 * L := by
  refine ⟨_, sha1_to_str_defined mem hash L buf buflen hL (by omega), ?_, ?_, ?_,
    sha1_out_string mem hash L buf buflen h, bufferOf_length _ _⟩
  · intro i hi
    have hview := congrFun (sha1_out_view mem hash L buf hap)
    simp only [bufView] at hview
    constructor
    · have e : 2 * i / 2 = i := by omega
      rw [hview (2 * i), sha1_out_digit _ L _ (2 * i) (by omega), if_pos (by omega), e]
    · have e : (2 * i + 1) / 2 = i := by omega
      rw [hview (2 * i + 1), sha1_out_digit _ L _ (2 * i + 1) (by omega), if_neg (by omega), e]
  · intro j hj
    have hne : buf + j ≠ buf + L * 2 := by omega
    obtain ⟨v, hv, he⟩ := sha1_writes_hex mem hash buf L j hj
    simp only [poke, if_neg hne, he]
    exact hexDigit_upper v hv
  · have hq : buf + 2 * L = buf + L * 2 := by omega
    simp only [poke, if_pos hq]

/-- C5 (witness): the digest AB CD at address 100 and a destination of five bytes at 200. -/
theorem sha1_to_str_hex_witness :
    2 < 2 ^ 30 ∧ 2 * 2 + 1 ≤ 5 ∧ Apart 100 2 200 ∧
    ∃ out, sha1_to_str memAB 100 2 200 5 = some (ERR_SUCCESS, out) ∧
      cstrAt (bufView out 200) 0 5 = some (bufferOf (bufView out 200) (2 * 2)) :=
  ⟨by decide, by decide, fun i hi => Or.inl (by omega),
    (sha1_to_str_hex memAB 100 2 200 5 (by decide) (by decide)
      (fun i hi => Or.inl (by omega))).elim
      (fun out ho => ⟨out, ho.1, ho.2.2.2.2.1⟩)⟩

/-- C6 (counterexample): for the digest of `2^30 + 1` zero bytes, held in memory apart from
a destination of `2^32` bytes, `sha1_to_str` leaves no string at all: the `int` counter
overflows and the run is undefined, so there is nothing to decode back. -/
theorem hex_round_trip_fails :
    HoldsDigest (fun _ => 0) 1 hugeDigest ∧ Apart 1 hugeDigest.length (2 ^ 31) ∧
    2 * hugeDigest.length + 1 ≤ 2 ^ 32 ∧
    hexString (fun _ => 0) 1 hugeDigest.length (2 ^ 31) (2 ^ 32) = none := by
  refine ⟨?_, ?_, ?_, ?_⟩
  · intro i hi
    rw [hugeDigest_length] at hi
    simp only [bytePtr, hugeDigest, List.getD_eq_getElem?_getD, List.getElem?_replicate, hi,
      if_true, Option.getD_some]
    rfl
  · intro i hi
    rw [hugeDigest_length] at hi
    exact Or.inl (by omega)
  · rw [hugeDigest_length]; decide
  · rw [hugeDigest_length]
    exact hexString_undefined _ _ _ _ _
      (sha1_to_str_overflow (fun _ => 0) 1 (2 ^ 30 + 1) (2 ^ 31) (2 ^ 32)
        (by rw [SIZE_MODULUS_eq]; decide) (by rw [INT_MAX_eq]; decide))

/-- C6 (amended): for every byte sequence `d` of fewer than `2^30` bytes, held in memory
apart from the destination, decoding the string `sha1_to_str` produces in a sufficient
buffer gives back `d`; hence two such digests with the same string are equal. -/
theorem hex_round_trip (d : List (Fin 256)) (mem : Nat → Nat) (hash buf buflen : Nat)
    (hL : d.length < 2 ^ 30) (h : 2 * d.length + 1 ≤ buflen)
    (hd : HoldsDigest mem hash d) (hap : Apart hash d.length buf) :
    (∃ s, hexString mem hash d.length buf buflen = some s ∧ hex_decode s = d) ∧
    (∀ (d2 : List (Fin 256)) (mem2 : Nat → Nat) (hash2 buf2 buflen2 : Nat),
      d2.length < 2 ^ 30 → 2 * d2.length + 1 ≤ buflen2 → HoldsDigest mem2 hash2 d2 →
      Apart hash2 d2.length buf2 →
      hexString mem2 hash2 d2.length buf2 buflen2 = hexString mem hash d.length buf buflen →
      d2 = d) := by
  constructor
  · exact ⟨hexChars d, hexString_eq d mem hash buf buflen hL h hd hap, hex_decode_hexChars d⟩
  · intro d2 mem2 hash2 buf2 buflen2 hL2 h2 hd2 hap2 he
    rw [hexString_eq d mem hash buf buflen hL h hd hap,
      hexString_eq d2 mem2 hash2 buf2 buflen2 hL2 h2 hd2 hap2] at he
    have := congrArg hex_decode (Option.some.inj he)
    rwa [hex_decode_hexChars, hex_decode_hexChars] at this

/-- C6 (witness): the round trip of the three bytes 00 11 AB, laid out before their
destination. -/
theorem hex_round_trip_witness :
    ([0x00, 0x11, 0xAB] : List (Fin 256)).length < 2 ^ 30 ∧
    2 * ([0x00, 0x11, 0xAB] : List (Fin 256)).length + 1 ≤ 7 ∧
    HoldsDigest (digestMem [0x00, 0x11, 0xAB]) 1 [0x00, 0x11, 0xAB] ∧
    Apart 1 ([0x00, 0x11, 0xAB] : List (Fin 256)).length 4 ∧
    ∃ s, hexString (digestMem [0x00, 0x11, 0xAB]) 1
        ([0x00, 0x11, 0xAB] : List (Fin 256)).length 4 7 = some s ∧
      hex_decode s = [0x00, 0x11, 0xAB] :=
  ⟨by decide, by decide, digestMem_holds _, digestMem_apart _,
    (hex_round_trip [0x00, 0x11, 0xAB] (digestMem [0x00, 0x11, 0xAB]) 1 4 7 (by decide)
      (by decide) (digestMem_holds _) (digestMem_apart _)).1⟩

/-- C7 (counterexample): with `hashlen = 2^63` and `buflen = 1` the guard of line 127
compares 1 with `2^64 + 1` wrapped to 1 and does not fire, although `buflen < 2*hashlen+1`:
the call does not return -1 but runs into the loop, which prints past the buffer and whose
counter overflows.  And with `hashlen = 2^30 + 1` and a buffer of `2^32` bytes, which is not
less than `2*hashlen+1`, the call does not return `ERR_SUCCESS`: the counter overflows. -/
theorem sha1_to_str_guard_wraps :
    (1 < 2 * 2 ^ 63 + 1 ∧
      (sha1_to_str memAB 100 (2 ^ 63) 200 1).map Prod.fst ≠ some (-1) ∧
      sha1_to_str memAB 100 (2 ^ 63) 200 1 = none) ∧
    (¬ 2 ^ 32 < 2 * (2 ^ 30 + 1) + 1 ∧
      (sha1_to_str memAB 100 (2 ^ 30 + 1) (2 ^ 31) (2 ^ 32)).map Prod.fst ≠
        some ERR_SUCCESS ∧
      sha1_to_str memAB 100 (2 ^ 30 + 1) (2 ^ 31) (2 ^ 32) = none) := by
  have h := sha1_to_str_overflow memAB 100 (2 ^ 63) 200 1
    (by rw [SIZE_MODULUS_eq]; decide) (by rw [INT_MAX_eq]; decide)
  have h2 := sha1_to_str_overflow memAB 100 (2 ^ 30 + 1) (2 ^ 31) (2 ^ 32)
    (by rw [SIZE_MODULUS_eq]; decide) (by rw [INT_MAX_eq]; decide)
  refine ⟨⟨by decide, ?_, h⟩, ⟨by decide, ?_, h2⟩⟩
  · rw [h]
    intro hc
    cases hc
  · rw [h2]
    intro hc
    cases hc

/-- C7 (amended): for every `hashlen < 2^63` and every `buflen`, `sha1_to_str` returns -1 if
and only if `buflen < 2*hashlen+1`; for every `hashlen < 2^30` it returns `ERR_SUCCESS` in
every other case, and the buffer then holds a string of exactly `2*hashlen` characters with
the terminator at index `2*hashlen`. -/
theorem sha1_to_str_error_iff (mem : Nat → Nat) (hash hashlen buf buflen : Nat) :
    (hashlen < 2 ^ 63 →
      ((sha1_to_str mem hash hashlen buf buflen).map Prod.fst = some (-1) ↔
        buflen < 2 * hashlen + 1)) ∧
    (hashlen < 2 ^ 30 → ¬ buflen < 2 * hashlen + 1 →
      ∃ out, sha1_to_str mem hash hashlen buf buflen = some (ERR_SUCCESS, out) ∧
        cstrAt (bufView out buf) 0 buflen = some (bufferOf (bufView out buf) (2 * hashlen)) ∧
        (bufferOf (bufView out buf) (2 * hashlen)).length = 2 * hashlen ∧
        out (buf + 2 * hashlen) = 0) := by
  constructor
  · intro hL
    have hmod : (hashlen * 2 + 1) % SIZE_MODULUS = hashlen * 2 + 1 := by
      rw [SIZE_MODULUS_eq]; omega
    by_cases h : buflen < hashlen * 2 + 1
    · have h2 : buflen < 2 * hashlen + 1 := by omega
      simp [sha1_to_str_small mem hash hashlen buf buflen hL h, h2]
    · have h2 : ¬ buflen < 2 * hashlen + 1 := by omega
      simp only [sha1_to_str, hmod, if_neg h, h2, iff_false]
      cases sha1_loop hash buf hashlen mem with
      | none => simp
      | some m =>
        by_cases hI : hashlen * 2 > INT_MAX
        · simp [hI]
        · simp [hI, ERR_SUCCESS]
  · intro hL h
    refine ⟨_, sha1_to_str_defined mem hash hashlen buf buflen hL (by omega),
      sha1_out_string mem hash hashlen buf buflen (by omega), bufferOf_length _ _, ?_⟩
    have hq : buf + 2 * hashlen = buf + hashlen * 2 := by omega
    simp only [poke, if_pos hq]

/-- C7 (witness): a digest of two bytes fails in four bytes and succeeds in five. -/
theorem sha1_to_str_error_iff_witness :
    2 < 2 ^ 63 ∧ (sha1_to_str memAB 100 2 200 4).map Prod.fst = some (-1) ∧
    2 < 2 ^ 30 ∧ ¬ 5 < 2 * 2 + 1 ∧
    ∃ out, sha1_to_str memAB 100 2 200 5 = some (ERR_SUCCESS, out) ∧ out (200 + 2 * 2) = 0 :=
  ⟨by decide, ((sha1_to_str_error_iff memAB 100 2 200 4).1 (by decide)).mpr (by decide),
    by decide, by decide,
    ((sha1_to_str_error_iff memAB 100 2 200 5).2 (by decide) (by decide)).elim
      (fun out ho => ⟨out, ho.1, ho.2.2.2⟩)⟩

/-- C9 (counterexample): with `root-snapshot-name` absent and `boot-manifest-hash` a digest
of `2^30 + 1` bytes, the `int` counter of `sha1_to_str` overflows and the call is undefined;
with the digest of 20 bytes and the `calloc` of line 183 failing, the digits are printed
through `NULL`, and with the `malloc` of line 208 failing the literal is copied through
`NULL`: the call is undefined.  None of the three yields the literal and the hex digits. -/
theorem copy_system_snapshot_legacy_undefined :
    regLegacyHuge.chosen_valid = true ∧ regLegacyHuge.root_snapshot_name = none ∧
    regLegacyHuge.boot_manifest_hash = some (CFValue.data hugeDigest) ∧
    (copy_system_snapshot regLegacyHuge true).undefined = true ∧
    resultString (copy_system_snapshot regLegacyHuge true) ≠
      some (APPLESNAP ++ hexChars hugeDigest) ∧
    regLegacyNoMem.boot_manifest_hash = some (CFValue.data digest20) ∧
    (copy_system_snapshot regLegacyNoMem true).undefined = true ∧
    resultString (copy_system_snapshot regLegacyNoMem true) ≠
      some (APPLESNAP ++ hexChars digest20) ∧
    regLegacyNoMalloc.boot_manifest_hash = some (CFValue.data digest20) ∧
    (copy_system_snapshot regLegacyNoMalloc true).undefined = true ∧
    resultString (copy_system_snapshot regLegacyNoMalloc true) ≠
      some (APPLESNAP ++ hexChars digest20) := by
  have hb : copyBootHash regLegacyHuge true = ⟨none, false, true⟩ :=
    copyBootHash_overflow regLegacyHuge true hugeDigest rfl rfl rfl
      (by rw [hugeDigest_length]; decide) (by rw [hugeDigest_length]; decide) rfl
  have hs : copy_system_snapshot regLegacyHuge true = ⟨none, false, true⟩ := by
    simp only [copy_system_snapshot, hb, if_true]
  refine ⟨rfl, rfl, rfl, by rw [hs], ?_, rfl, by decide, by decide, rfl, by decide,
    by decide⟩
  rw [hs]
  intro h
  cases h

/-- C9 (amended): when `root-snapshot-name` is absent and `boot-manifest-hash` is a binary
digest `d` of length `L < 2^30`, and the `calloc` of line 183 and the `malloc` of line 208
succeed, then whatever the flag held before, `copy_system_snapshot` returns the literal of
`APPLESNAP` followed by the hex encoding of `d`: 20 characters and then `2L` uppercase hex
digits, 60 characters in all for a digest of 20 bytes. -/
theorem copy_system_snapshot_legacy (reg : Registry) (flag : Bool) (d : List (Fin 256))
    (hv : reg.chosen_valid = true) (hroot : reg.root_snapshot_name = none)
    (hboot : reg.boot_manifest_hash = some (CFValue.data d))
    (hL : d.length < 2 ^ 30) (hc : reg.calloc_ok = true) (hm : reg.malloc_ok = true) :
    resultString (copy_system_snapshot reg flag) = some (APPLESNAP ++ hexChars d) ∧
    (copy_system_snapshot reg flag).undefined = false ∧
    (hexChars d).length = 2 * d.length ∧
    (∀ c ∈ hexChars d, isUpperHex c) ∧
    (APPLESNAP ++ hexChars d).length = 20 + 2 * d.length ∧
    (d.length = 20 → (APPLESNAP ++ hexChars d).length = 60) := by
  have hlen : (APPLESNAP ++ hexChars d).length = 20 + 2 * d.length := by
    rw [List.length_append, hexChars_length]; rfl
  have hnz : ∀ c ∈ APPLESNAP ++ hexChars d, c ≠ 0 := by
    intro c hc
    rcases List.mem_append.mp hc with h | h
    · exact APPLESNAP_ne_zero c h
    · exact hexChars_ne_zero d c h
  have hs : copy_system_snapshot reg flag =
      ⟨some (APPLESNAP ++ hexChars d ++ [0]), false, false⟩ := by
    simp only [copy_system_snapshot, copyBootHash_legacy reg flag d hv hroot hboot hL hc, hm,
      cstr_append_zero (hexChars d) [] (hexChars_ne_zero d)]
    simp
  refine ⟨?_, by rw [hs], hexChars_length d, hexChars_upper d, hlen,
    fun h20 => by rw [hlen, h20]⟩
  rw [hs]
  simp only [resultString, Option.map_some']
  rw [cstr_append_zero (APPLESNAP ++ hexChars d) [] hnz]

/-- C9 (witness): the digest of 20 bytes 00 11 22 up to 33 gives the 60 characters
"com.apple.os.update-00112233445566778899AABBCCDDEEFF00112233". -/
theorem copy_system_snapshot_legacy_witness :
    regLegacy.chosen_valid = true ∧ regLegacy.root_snapshot_name = none ∧
    regLegacy.boot_manifest_hash = some (CFValue.data digest20) ∧
    digest20.length < 2 ^ 30 ∧ regLegacy.calloc_ok = true ∧ regLegacy.malloc_ok = true ∧
    resultString (copy_system_snapshot regLegacy true) =
      some (APPLESNAP ++
        [48, 48, 49, 49, 50, 50, 51, 51, 52, 52, 53, 53, 54, 54, 55, 55, 56, 56, 57, 57,
         65, 65, 66, 66, 67, 67, 68, 68, 69, 69, 70, 70, 48, 48, 49, 49, 50, 50, 51, 51]) :=
  ⟨rfl, rfl, rfl, by decide, rfl, rfl,
    (copy_system_snapshot_legacy regLegacy true digest20 rfl rfl rfl (by decide) rfl rfl).1⟩

/-- C10: when neither `root-snapshot-name` nor `boot-manifest-hash` is available,
`copy_system_snapshot` returns `NULL`, whatever the flag held before: no empty string, no
bare literal, no other buffer. -/
theorem copy_system_snapshot_neither (reg : Registry) (flag : Bool)
    (hroot : reg.root_snapshot_name = none) (hboot : reg.boot_manifest_hash = none) :
    (copy_system_snapshot reg flag).1 = none ∧
    resultString (copy_system_snapshot reg flag) = none ∧
    (copy_system_snapshot reg flag).undefined = false := by
  have h1 : (copy_system_snapshot reg flag).1 = none ∧
      (copy_system_snapshot reg flag).undefined = false := by
    cases hv : reg.chosen_valid <;> cases flag <;>
      simp [copy_system_snapshot, copyBootHash, hv, hroot, hboot]
  exact ⟨h1.1, by simp [resultString, h1.1], h1.2⟩

/-- C10 (witness): a device tree with neither property. -/
theorem copy_system_snapshot_neither_witness :
    regNeither.root_snapshot_name = none ∧ regNeither.boot_manifest_hash = none ∧
    (copy_system_snapshot regNeither true).1 = none ∧
    (copy_system_snapshot regNeither false).1 = none :=
  ⟨rfl, rfl, (copy_system_snapshot_neither regNeither true rfl rfl).1,
    (copy_system_snapshot_neither regNeither false rfl rfl).1⟩

/-- C11 (counterexample): the modern property is present, the flag was false before the
call, and it is still false after it: the call does not set the flag to modern. -/
theorem copyBootHash_flag_not_set :
    regModern.root_snapshot_name ≠ none ∧ (copyBootHash regModern false).2 = false :=
  ⟨fun h => Option.noConfusion h, by decide⟩

/-- C11 (amended): after every call to `copyBootHash` in which `root-snapshot-name` is
looked up and found absent the flag is legacy (false), whatever it held before; after a call
in which the property is present, or in which the port of the chosen node is invalid, the
flag holds the value it had before the call.  The flag is only ever cleared. -/
theorem copyBootHash_flag_spec (reg : Registry) (flag : Bool) :
    (reg.chosen_valid = true → reg.root_snapshot_name = none →
      (copyBootHash reg flag).2 = false) ∧
    (reg.root_snapshot_name ≠ none → (copyBootHash reg flag).2 = flag) ∧
    (reg.chosen_valid = false → (copyBootHash reg flag).2 = flag) ∧
    ((copyBootHash reg flag).2 = true → flag = true) := by
  rw [copyBootHash_flag]
  refine ⟨?_, ?_, ?_, ?_⟩
  · intro h1 h2
    simp [h1, h2]
  · intro h
    cases hr : reg.root_snapshot_name with
    | none => exact absurd hr h
    | some v => simp
  · intro h
    simp [h]
  · intro h
    split at h
    · exact Bool.noConfusion h
    · exact h

/-- C11 (witness): absent property clears a true flag, present property keeps a true flag. -/
theorem copyBootHash_flag_spec_witness :
    regLegacy.chosen_valid = true ∧ regLegacy.root_snapshot_name = none ∧
    (copyBootHash regLegacy true).2 = false ∧
    regModern.root_snapshot_name ≠ none ∧ (copyBootHash regModern true).2 = true :=
  ⟨rfl, rfl, (copyBootHash_flag_spec regLegacy true).1 rfl rfl, fun h => Option.noConfusion h,
    (copyBootHash_flag_spec regModern true).2.1 (fun h => Option.noConfusion h)⟩

/-- C12: when the paging primitive returns a negative value before more than 256 named
records have been delivered, `copy_snapshot_list` returns `NULL`, for every allocator and
however many names were already collected. -/
theorem copy_snapshot_list_paging_failure (env : Env)
    (hneg : streamEnd env.pages < 0) (hN : (deliveredNames env.pages).length ≤ 256) :
    (copy_snapshot_list env).ret = none := by
  by_cases hc : env.calloc (257 * sizeof_ptr + MAXPATHLEN) 1 = 0
  · simp [copy_snapshot_list, hc]
  · rw [copy_snapshot_list_run env hc]
    have hsh := visitAll_shape env (delivered env.pages) _ (initState_shape env)
    have hlen : (deliveredNames env.pages).length = (named (delivered env.pages)).length := by
      simp [deliveredNames]
    cases hvis : visitAll env (delivered env.pages) (initState env) with
    | error o =>
      rcases hsh.2 o hvis with h0 | ⟨l, _, _, h3⟩
      · exact h0
      · have h0 : (initState env).snapidx = 0 := rfl
        omega
    | ok st1 =>
      simp [finish, hneg]

/-- C12 (witness): one snapshot is delivered, then the primitive returns -1. -/
theorem copy_snapshot_list_paging_failure_witness :
    streamEnd envPagingError.pages < 0 ∧ (deliveredNames envPagingError.pages).length ≤ 256 ∧
    (copy_snapshot_list envPagingError).ret = none :=
  ⟨by decide, by decide, copy_snapshot_list_paging_failure envPagingError (by decide) (by decide)⟩

/-- C13: if the initial allocation fails, or a buffer-growth reallocation fails at any point
of the call, `copy_snapshot_list` returns `NULL` with the matching diagnostic: no partial
list is returned, for every paging stream and every allocator. -/
theorem copy_snapshot_list_alloc_failure (env : Env)
    (h : env.calloc (257 * sizeof_ptr + MAXPATHLEN) 1 = 0 ∨ ReallocFails env) :
    (copy_snapshot_list env).ret = none ∧
    ((copy_snapshot_list env).diag = some Diag.calloc_failed ∨
      (copy_snapshot_list env).diag = some Diag.realloc_failed) := by
  rcases h with hc | ⟨hc, pre, e, post, st, hdel, hpre, hn, hidx, hgrow, hnull⟩
  · simp [copy_snapshot_list, hc]
  · have hvis : visit env e st = .error { ret := none, diag := some Diag.realloc_failed } := by
      simp only [visit, if_pos hn, if_neg hidx, if_pos hgrow, if_pos hnull]
    rw [copy_snapshot_list_run env hc, hdel, visitAll_append, hpre]
    simp only [visitAll, hvis]
    exact ⟨trivial, Or.inr trivial⟩

/-- C13 (witness): seventeen snapshots whose seventeenth name needs growth, with `reallocf`
failing; and 257 snapshots with `calloc` failing. -/
theorem copy_snapshot_list_alloc_failure_witness :
    ReallocFails envReallocFail ∧ (copy_snapshot_list envReallocFail).ret = none ∧
    envNoMem.calloc (257 * sizeof_ptr + MAXPATHLEN) 1 = 0 ∧
    (copy_snapshot_list envNoMem).ret = none := by
  have hr : ReallocFails envReallocFail :=
    ⟨by decide, delivered (streamOf 16), (onePage 16).buf 0, [],
      stateAfter envReallocFail (delivered (streamOf 16)), rfl, rfl,
      by decide, by decide, by decide, rfl⟩
  exact ⟨hr, (copy_snapshot_list_alloc_failure envReallocFail (Or.inr hr)).1, rfl,
    (copy_snapshot_list_alloc_failure envNoMem (Or.inl rfl)).1⟩

/-- C14: when `root-snapshot-name` is absent and `boot-manifest-hash` is present but not of
the binary-data type, `copyBootHash` returns `NULL` and so does `copy_system_snapshot`. -/
theorem copyBootHash_wrong_type (reg : Registry) (flag : Bool)
    (hroot : reg.root_snapshot_name = none)
    (hboot : reg.boot_manifest_hash = some CFValue.other) :
    (copyBootHash reg flag).1 = none ∧ (copy_system_snapshot reg flag).1 = none ∧
    (copyBootHash reg flag).undefined = false ∧
    (copy_system_snapshot reg flag).undefined = false := by
  cases hv : reg.chosen_valid <;> cases flag <;>
    simp [copy_system_snapshot, copyBootHash, hv, hroot, hboot]

/-- C14 (witness): a device tree whose legacy property has another type. -/
theorem copyBootHash_wrong_type_witness :
    regWrongType.root_snapshot_name = none ∧
    regWrongType.boot_manifest_hash = some CFValue.other ∧
    (copyBootHash regWrongType true).1 = none ∧
    (copy_system_snapshot regWrongType true).1 = none :=
  ⟨rfl, rfl, (copyBootHash_wrong_type regWrongType true rfl rfl).1,
    (copyBootHash_wrong_type regWrongType true rfl rfl).2.1⟩

/-- C15 (counterexample): the last page reports two records, at offsets 0 and 96, but its
first record is the 257th name and the call returns there with the capacity diagnostic:
only offset 0 is read.  The same happens when `reallocf` fails at the first record of a
page of two. -/
theorem scan_stops_inside_page :
    (envFullPage.pages.map (fun p => p.retcount))[256]? = some 2 ∧
    (envFullPage.pages.map pageOffsets)[256]? = some [0, 96] ∧
    (copy_snapshot_list_trace envFullPage)[256]? = some [0] ∧
    (copy_snapshot_list envFullPage).diag = some Diag.too_many ∧
    (envShortPage.pages.map (fun p => p.retcount))[16]? = some 2 ∧
    (copy_snapshot_list_trace envShortPage)[16]? = some [0] ∧
    copy_snapshot_list_trace envShortPage ≠ envShortPage.pages.map pageOffsets := by
  decide

/-- C15 (amended): in every page the loop enters, the records are read in order, the k-th
at the byte offset that is the sum of the `length` fields of records 0 to k-1 of that page,
starting with record 0; all `retcount` records of the page are read unless the call returns
from inside the loop body at one of them (capacity reached or growth failed), which can only
happen in the last page entered. -/
theorem scan_follows_lengths (env : Env) :
    TraceOK (!returnedInside (copy_snapshot_list env)) env.pages
      (copy_snapshot_list_trace env) ∧
    (∀ (buf : Nat → val_attrs) (k : Nat),
      recOffset buf k = ((records buf k 0).map (fun e => e.length)).sum) ∧
    (returnedInside (copy_snapshot_list env) = false →
      env.calloc (257 * sizeof_ptr + MAXPATHLEN) 1 ≠ 0 →
      copy_snapshot_list_trace env <+: env.pages.map pageOffsets) := by
  refine ⟨?_, recOffset_eq_sum, ?_⟩
  · by_cases hc : env.calloc (257 * sizeof_ptr + MAXPATHLEN) 1 = 0
    · simp [copy_snapshot_list_trace, hc, TraceOK]
    · have h := list_trace_ok env env.pages (initState env)
      simp only [copy_snapshot_list_trace, if_neg hc]
      have hrun : copy_snapshot_list env = list_loop env env.pages (initState env) := by
        simp only [copy_snapshot_list, if_neg hc, initState]
      rw [hrun]
      exact h
  · intro hin hc
    have h := list_trace_ok env env.pages (initState env)
    have hrun : copy_snapshot_list env = list_loop env env.pages (initState env) := by
      simp only [copy_snapshot_list, if_neg hc, initState]
    rw [← hrun, hin] at h
    simp only [copy_snapshot_list_trace, if_neg hc]
    generalize list_trace env env.pages (initState env) = T at h
    generalize env.pages = ps at h
    induction ps generalizing T with
    | nil =>
      cases T with
      | nil => exact List.nil_prefix
      | cons t ts => exact absurd h (by simp [TraceOK])
    | cons p ps ih =>
      cases T with
      | nil => exact List.nil_prefix
      | cons t ts =>
        simp only [TraceOK] at h
        obtain ⟨_, _, _, hfull, hrest⟩ := h
        rw [hfull (Or.inr rfl), List.map_cons]
        exact (List.prefix_cons_inj _).mpr (ih ts hrest)

/-- C15 (witness): two pages of two records each, read at offsets 0 and 96. -/
theorem scan_follows_lengths_witness :
    returnedInside (copy_snapshot_list envTwoPages) = false ∧
    envTwoPages.calloc (257 * sizeof_ptr + MAXPATHLEN) 1 ≠ 0 ∧
    copy_snapshot_list_trace envTwoPages = [[0, 96], [0, 96]] ∧
    copy_snapshot_list_trace envTwoPages <+: envTwoPages.pages.map pageOffsets :=
  ⟨by decide, by decide, by decide,
    (scan_follows_lengths envTwoPages).2.2 (by decide) (by decide)⟩

/-- C16: provided every record name is NUL-terminated within `MAXPATHLEN` bytes, every name
copy of a call goes to a range `[dst, dst + size)` that starts past the 257 slots of the
index and ends inside the buffer as it is at that moment, grown by at most one step of
`MAXPATHLEN`; the first name starts right after the index, each later name starts where the
one before it ends, and the ranges of distinct names do not overlap.  This holds for every
allocator, and a returned list has one entry per copy. -/
theorem copy_snapshot_list_buffer_fit (env : Env) (hfit : NamesFit env.pages) :
    (∀ c ∈ copy_snapshot_list_copies env,
      257 * sizeof_ptr ≤ c.dst ∧ c.dst + c.size ≤ c.snapshots_size ∧
      (c.snapshots_size = c.size_before ∨ c.snapshots_size = c.size_before + MAXPATHLEN)) ∧
    (∀ c, (copy_snapshot_list_copies env).head? = some c → c.dst = 257 * sizeof_ptr) ∧
    List.Chain' (fun a b => b.dst = a.dst + a.size) (copy_snapshot_list_copies env) ∧
    List.Pairwise (fun a b => a.dst + a.size ≤ b.dst) (copy_snapshot_list_copies env) ∧
    (∀ l, (copy_snapshot_list env).ret = some l →
      (copy_snapshot_list_copies env).length = l.entries.length) := by
  have hcount : ∀ l, (copy_snapshot_list env).ret = some l →
      (copy_snapshot_list_copies env).length = l.entries.length :=
    fun l h => copies_count env l h
  unfold copy_snapshot_list_copies at hcount ⊢
  by_cases hc : env.calloc (257 * sizeof_ptr + MAXPATHLEN) 1 = 0
  · simp [hc] at hcount ⊢
    exact hcount
  · rw [if_neg hc] at hcount ⊢
    obtain ⟨h1, h2, h3, h4⟩ :=
      copies_packed env (delivered env.pages) (initState env) (initState_room env) hfit
    exact ⟨h1, h2, h3, h4, hcount⟩

/-- C16 (witness): seventeen names of 61 bytes, the block being moved when it grows: the
copies are packed from offset 2056 on and all fit. -/
theorem copy_snapshot_list_buffer_fit_witness :
    NamesFit envMoved.pages ∧ (copy_snapshot_list_copies envMoved).length = 17 ∧
    ∀ c ∈ copy_snapshot_list_copies envMoved,
      257 * sizeof_ptr ≤ c.dst ∧ c.dst + c.size ≤ c.snapshots_size ∧
      (c.snapshots_size = c.size_before ∨ c.snapshots_size = c.size_before + MAXPATHLEN) :=
  ⟨by unfold NamesFit; decide, by decide,
    (copy_snapshot_list_buffer_fit envMoved (by unfold NamesFit; decide)).1⟩

/-- C17 (counterexample): a well-typed legacy digest does not always yield a non-null
identifier.  With a digest of `2^30 + 1` bytes the `int` counter of `sha1_to_str` overflows,
and with the `calloc` of line 183 failing the digits are printed through `NULL`: in both
cases the call is undefined and no identifier is produced. -/
theorem copyBootHash_hex_undefined :
    regLegacyHuge.chosen_valid = true ∧ regLegacyHuge.root_snapshot_name = none ∧
    regLegacyHuge.boot_manifest_hash = some (CFValue.data hugeDigest) ∧
    copyBootHash regLegacyHuge true = ⟨none, false, true⟩ ∧
    regLegacyNoMem.chosen_valid = true ∧ regLegacyNoMem.root_snapshot_name = none ∧
    regLegacyNoMem.boot_manifest_hash = some (CFValue.data digest20) ∧
    (copyBootHash regLegacyNoMem true).undefined = true ∧
    (copyBootHash regLegacyNoMem true).1 = none :=
  ⟨rfl, rfl, rfl,
    copyBootHash_overflow regLegacyHuge true hugeDigest rfl rfl rfl
      (by rw [hugeDigest_length]; decide) (by rw [hugeDigest_length]; decide) rfl,
    rfl, rfl, rfl, by decide, by decide⟩

/-- C17 (amended): the hex-encoding step of `copyBootHash` never takes its failure return.
For every digest length the destination size passed is `2L+1`, so whenever `sha1_to_str`
returns there it returns `ERR_SUCCESS`: its buffer-too-small branch and the "Unable to
generate bootHash string" return are unreachable.  A well-typed legacy digest of fewer than
`2^30` bytes yields a non-null identifier, its hex string, provided the `calloc` of line 183
succeeds; and a `NULL` return of a run without undefined step comes only from the other
returns: invalid port, no property, or a property of another type. -/
theorem copyBootHash_hex_never_fails (reg : Registry) (flag : Bool) :
    (∀ (d : List (Fin 256)) (r : Int × (Nat → Nat)),
      sha1_to_str (digestMem d) 1 d.length (1 + d.length) (d.length * 2 + 1) = some r →
      r.1 = ERR_SUCCESS) ∧
    (∀ d, reg.chosen_valid = true → reg.root_snapshot_name = none →
      reg.boot_manifest_hash = some (CFValue.data d) → d.length < 2 ^ 30 →
      reg.calloc_ok = true →
      copyBootHash reg flag = ⟨some (hexChars d ++ [0]), false, false⟩) ∧
    ((copyBootHash reg flag).1 = none → (copyBootHash reg flag).undefined = false →
      reg.chosen_valid = false ∨
      (reg.root_snapshot_name = none ∧ reg.boot_manifest_hash = none) ∨
      (reg.root_snapshot_name = none ∧ reg.boot_manifest_hash = some CFValue.other) ∨
      reg.root_snapshot_name = some CFValue.other) := by
  refine ⟨fun d r h => sha1_to_str_exact _ _ _ _ r h, ?_, ?_⟩
  · intro d hv hroot hboot hL hc
    exact copyBootHash_legacy reg flag d hv hroot hboot hL hc
  · intro hnone hdef
    cases hv : reg.chosen_valid with
    | false => exact Or.inl rfl
    | true =>
      right
      cases hroot : reg.root_snapshot_name with
      | none =>
        cases hboot : reg.boot_manifest_hash with
        | none => exact Or.inl ⟨rfl, rfl⟩
        | some v =>
          cases v with
          | other => exact Or.inr (Or.inl ⟨rfl, rfl⟩)
          | data d =>
            exfalso
            simp only [copyBootHash, hv, hroot, hboot, Bool.not_true, Bool.false_eq_true,
              if_false] at hnone hdef
            exact copyBootHash_data_defined reg d false hnone hdef
      | some v =>
        cases v with
        | other => exact Or.inr (Or.inr rfl)
        | data d =>
          exfalso
          cases flag
          · simp only [copyBootHash, hv, hroot, Bool.not_true, Bool.false_eq_true,
              if_false] at hnone hdef
            exact copyBootHash_data_defined reg d false hnone hdef
          · simp [copyBootHash, hv, hroot] at hnone

/-- C17 (witness): the legacy digest of 20 bytes yields its 40 hex characters and the NUL. -/
theorem copyBootHash_hex_never_fails_witness :
    regLegacy.chosen_valid = true ∧ regLegacy.root_snapshot_name = none ∧
    regLegacy.boot_manifest_hash = some (CFValue.data digest20) ∧
    digest20.length < 2 ^ 30 ∧ regLegacy.calloc_ok = true ∧
    copyBootHash regLegacy true = ⟨some (hexChars digest20 ++ [0]), false, false⟩ :=
  ⟨rfl, rfl, rfl, by decide, rfl,
    (copyBootHash_hex_never_fails regLegacy true).2.1 digest20 rfl rfl rfl (by decide) rfl⟩

/-- C18 (counterexample): the digest AB CD at address 100 is passed as its own destination;
the call succeeds and the digest bytes are overwritten by the characters "AB".  And with
`hashlen = 2^63` and `buflen = 1`, where `buflen < 2*hashlen+1`, the call does not fail
leaving memory as it was: the guard of line 127 wraps and the run is undefined. -/
theorem sha1_to_str_overwrites_digest :
    (2 * 2 + 1 ≤ 5 ∧ memAB 100 = 0xAB ∧ memAB 101 = 0xCD ∧
      (sha1_to_str memAB 100 2 100 5).map (fun r => (r.1, r.2 100, r.2 101)) =
        some (ERR_SUCCESS, 65, 66)) ∧
    (1 < 2 * 2 ^ 63 + 1 ∧ sha1_to_str memAB 100 (2 ^ 63) 200 1 = none) :=
  ⟨by decide, by decide,
    sha1_to_str_overflow memAB 100 (2 ^ 63) 200 1 (by rw [SIZE_MODULUS_eq]; decide)
      (by rw [INT_MAX_eq]; decide)⟩

/-- C18 (amended): the frame of `sha1_to_str`.  When it fails (`buflen < 2*hashlen+1`, with
`hashlen < 2^63`) memory is left as it was.  When it succeeds, which it does for every
`hashlen < 2^30` otherwise, no byte outside the addresses `buf` to `buf + 2*hashlen` is
changed: every byte of the buffer at an index above `2*hashlen` keeps its value, and the
digest is not modified provided it lies outside that range.  The same frame holds for every
run that returns at all. -/
theorem sha1_to_str_frame (mem : Nat → Nat) (hash hashlen buf buflen : Nat) :
    (hashlen < 2 ^ 63 → buflen < 2 * hashlen + 1 →
      sha1_to_str mem hash hashlen buf buflen = some (-1, mem)) ∧
    (hashlen < 2 ^ 30 → ¬ buflen < 2 * hashlen + 1 →
      ∃ out, sha1_to_str mem hash hashlen buf buflen = some (ERR_SUCCESS, out) ∧
        (∀ a, (a < buf ∨ buf + 2 * hashlen < a) → out a = mem a) ∧
        (∀ j, 2 * hashlen < j → out (buf + j) = mem (buf + j)) ∧
        (Apart hash hashlen buf → ∀ i, i < hashlen → out (hash + i) = mem (hash + i))) ∧
    (∀ r, sha1_to_str mem hash hashlen buf buflen = some r →
      ∀ a, (a < buf ∨ buf + 2 * hashlen < a) → r.2 a = mem a) := by
  refine ⟨?_, ?_, ?_⟩
  · intro hL h
    exact sha1_to_str_small mem hash hashlen buf buflen hL (by omega)
  · intro hL h
    refine ⟨_, sha1_to_str_defined mem hash hashlen buf buflen hL (by omega), ?_, ?_, ?_⟩
    · intro a ha
      exact sha1_out_frame mem hash hashlen buf a ha
    · intro j hj
      exact sha1_out_frame mem hash hashlen buf (buf + j) (Or.inr (by omega))
    · intro hap i hi
      exact sha1_out_frame mem hash hashlen buf (hash + i) (hap i hi)
  · intro r hr a ha
    exact sha1_to_str_returns_frame mem hash hashlen buf buflen r hr a ha

/-- C18 (witness): the digest AB CD at address 100 and a destination at address 200; in
four bytes the call fails and memory is unchanged, in five bytes it succeeds and leaves the
digest and address 205 as they were. -/
theorem sha1_to_str_frame_witness :
    2 < 2 ^ 63 ∧ 4 < 2 * 2 + 1 ∧ sha1_to_str memAB 100 2 200 4 = some (-1, memAB) ∧
    2 < 2 ^ 30 ∧ ¬ 5 < 2 * 2 + 1 ∧ Apart 100 2 200 ∧
    ∃ out, sha1_to_str memAB 100 2 200 5 = some (ERR_SUCCESS, out) ∧
      out 205 = memAB 205 ∧ out 100 = 0xAB ∧ out 101 = 0xCD :=
  ⟨by decide, by decide,
    (sha1_to_str_frame memAB 100 2 200 4).1 (by decide) (by decide),
    by decide, by decide, fun i hi => Or.inl (by omega),
    ((sha1_to_str_frame memAB 100 2 200 5).2.1 (by decide) (by decide)).elim
      (fun out ho => ⟨out, ho.1, ho.2.1 205 (Or.inr (by decide)),
        ho.2.2.2 (fun i hi => Or.inl (by omega)) 0 (by decide),
        ho.2.2.2 (fun i hi => Or.inl (by omega)) 1 (by decide)⟩)⟩

end Snappy
